import Mathlib

/-!
Verification of the Muushig card-game engine.

The definitions below are a shallow embedding of the TypeScript sources:
`utils/deck.ts` (deck helpers and the playable-card algorithm),
`game/PlayerManager.ts`, `game/GameStateManager.ts` and `game/GameManager.ts`.
Arrays become `List`s, JavaScript `null`/`undefined` becomes `Option`, string
player ids become `Nat` ids, and `Number.NEGATIVE_INFINITY` (used only as a
"no card" sentinel for card values) becomes `none : Option Nat`.
-/

namespace Muushig

/-- Suits of the deck, the `suit` component of `Card` in `types/game.ts`. -/
inductive Suit
  | hearts | diamonds | clubs | spades
deriving DecidableEq, Repr

/-- Ranks 7..A, the `rank` component of `Card` in `types/game.ts`. -/
inductive Rank
  | r7 | r8 | r9 | r10 | jack | queen | king | ace
deriving DecidableEq, Repr

/-- The function `getCardValue` of `utils/deck.ts`. -/
def getCardValue : Rank → Nat
  | .ace => 14
  | .king => 13
  | .queen => 12
  | .jack => 11
  | .r10 => 10
  | .r9 => 9
  | .r8 => 8
  | .r7 => 7

/-- The `Card` record of `types/game.ts`: suit, rank, and numeric value. -/
structure Card where
  suit : Suit
  rank : Rank
  value : Nat
deriving DecidableEq, Repr

/-- Cards as built by `createDeck`, whose `value` field is `getCardValue(rank)`. -/
def mkCard (s : Suit) (r : Rank) : Card := ⟨s, r, getCardValue r⟩

/-! ### Helpers for the playable-cards logic (`utils/deck.ts`) -/

/-- The helper `allIndices(arr) = arr.map((_, i) => i)`: the indices `0..len-1`. -/
def allIndices (l : List Card) : List Nat := List.range l.length

/-- Recursion worker for `indicesWhere`; `i` is the index of the head of `l`
inside the original array. -/
def indicesWhereAux (p : Card → Bool) : List Card → Nat → List Nat
  | [], _ => []
  | c :: rest, i =>
      if p c then i :: indicesWhereAux p rest (i + 1) else indicesWhereAux p rest (i + 1)

/-- The helper `indicesWhere(arr, pred)`: the indices whose element satisfies
the predicate, in increasing order. -/
def indicesWhere (l : List Card) (p : Card → Bool) : List Nat := indicesWhereAux p l 0

/-- The helper `hasSuit(hand, suit) = !!suit && hand.some(c => c.suit === suit)`. -/
def hasSuit (hand : List Card) : Option Suit → Bool
  | none => false
  | some s => hand.any (fun c => c.suit = s)

/-- The helper `suitIndices(hand, suit)`: indices of the cards of `suit`,
or `[]` when `suit` is null. -/
def suitIndices (hand : List Card) : Option Suit → List Nat
  | none => []
  | some s => indicesWhere hand (fun c => c.suit = s)

/-- Comparison `v > minValue` where `minValue` may be
`Number.NEGATIVE_INFINITY`, modelled as `none`. -/
def gtMin (minValue : Option Nat) (v : Nat) : Bool :=
  match minValue with
  | none => true
  | some m => m < v

/-- The helper `higherThanInSuit(hand, suit, minValue)`: indices of the cards
of `suit` with value above `minValue` (which may be the `-Infinity` sentinel). -/
def higherThanInSuit (hand : List Card) (suit : Option Suit) (minValue : Option Nat) :
    List Nat :=
  match suit with
  | none => []
  | some s => indicesWhere hand (fun c => c.suit = s && gtMin minValue c.value)

/-- Recursion worker mirroring `Array.prototype.findIndex`; JS returns `-1`
when nothing matches, modelled as `none`. -/
def findIndexAux (p : Card → Bool) : List Card → Nat → Option Nat
  | [], _ => none
  | c :: rest, i => if p c then some i else findIndexAux p rest (i + 1)

/-- The helper `firstAceIndexInSuit(hand, suit)`:
`hand.findIndex(c => c.suit === suit && c.rank === 'A')`, `-1` as `none`. -/
def firstAceIndexInSuit (hand : List Card) : Option Suit → Option Nat
  | none => none
  | some s => findIndexAux (fun c => c.suit = s && c.rank = Rank.ace) hand 0

/-- The value `card?.value` of an optional card (`highestValue` without its
`-Infinity` default, which is recovered by `gtMin`). -/
def optValue : Option Card → Option Nat
  | none => none
  | some c => some c.value

/-- The comparison `highestValue(oc) > v`: false when `oc` is null
(`-Infinity > v`), otherwise `oc.value > v`. -/
def optGtVal : Option Card → Nat → Bool
  | none, _ => false
  | some c, v => v < c.value

/-- The candidate filter of `findHighestCardInSuit`:
`(suit ? c.suit === suit : true) && c.suit !== trumpSuit`. -/
def inSuitNonTrump (suit trumpSuit : Option Suit) (c : Card) : Bool :=
  (match suit with | some s => decide (c.suit = s) | none => true) &&
  (match trumpSuit with | some t => decide (c.suit ≠ t) | none => true)

/-- The loop body of `findHighestCardInSuit`: keep the higher-value card. -/
def valueMaxStep (highest card : Card) : Card :=
  if highest.value < card.value then card else highest

/-- The function `findHighestCardInSuit(cards, suit, trumpSuit)` of
`utils/deck.ts`: the highest-value card among those of `suit` (any suit when
`suit` is null) whose suit is not `trumpSuit`; the JS function returns `null!`
when no candidate exists, modelled as `none`. -/
def findHighestCardInSuit (cards : List Card) (suit : Option Suit)
    (trumpSuit : Option Suit) : Option Card :=
  let candidates := cards.filter (inSuitNonTrump suit trumpSuit)
  match candidates with
  | [] => none
  | c0 :: _ => some (candidates.foldl valueMaxStep c0)

/-- The function `playableWhenNoLeadSuit` of `utils/deck.ts`: legal indices
when the player cannot follow the lead suit (trump and overtrump rules). -/
def playableWhenNoLeadSuit (playerHand : List Card) (currentHouse : List Card)
    (trumpSuit : Option Suit) : List Nat :=
  match trumpSuit with
  | none => allIndices playerHand
  | some _ =>
    let highestTrumpOnTable := findHighestCardInSuit currentHouse trumpSuit none
    let playerHasTrump := hasSuit playerHand trumpSuit
    match highestTrumpOnTable with
    | none =>
        if playerHasTrump then suitIndices playerHand trumpSuit
        else allIndices playerHand
    | some h =>
        if playerHasTrump then
          let highestTrumpInHand := findHighestCardInSuit playerHand trumpSuit none
          if optGtVal highestTrumpInHand h.value then
            higherThanInSuit playerHand trumpSuit (some h.value)
          else
            suitIndices playerHand trumpSuit
        else allIndices playerHand

/-- The function `playableWhenHasLeadSuit` of `utils/deck.ts`: legal indices
when the player can follow the lead suit (ace shortcut and beat-if-able). -/
def playableWhenHasLeadSuit (playerHand : List Card) (currentHouse : List Card)
    (leadSuit : Option Suit) (trumpSuit : Option Suit) (allowAceShortcut : Bool) :
    List Nat :=
  match leadSuit with
  | none => allIndices playerHand
  | some s =>
    match (if allowAceShortcut then firstAceIndexInSuit playerHand (some s) else none) with
    | some aceIdx => [aceIdx]
    | none =>
      let highestNonTrumpLead := findHighestCardInSuit currentHouse (some s) trumpSuit
      let threshold := optValue highestNonTrumpLead
      let canBeat := playerHand.any (fun c => c.suit = s && gtMin threshold c.value)
      if canBeat then higherThanInSuit playerHand (some s) threshold
      else suitIndices playerHand (some s)

/-- The function `findPlayableCards` of `utils/deck.ts` (refactored version):
the indices of the cards that are legal to play next. JavaScript computes
`enteredPlayers - 1` over integers; for the argument ranges that occur
(`currentHouse.length ≥ 1` once past the first branch) truncated `Nat`
subtraction makes the same comparisons true. -/
def findPlayableCards (playerHand : List Card) (leadSuit : Option Suit)
    (trumpSuit : Option Suit) (currentHouse : List Card) (enteredPlayers : Nat) :
    List Nat :=
  if currentHouse.length = 0 then
    List.range playerHand.length
  else
    let isLastToPlay : Bool := currentHouse.length = enteredPlayers - 1
    let canFollowLead := hasSuit playerHand leadSuit
    if canFollowLead then
      let allowAceShortcut : Bool :=
        decide (1 ≤ currentHouse.length) && decide (currentHouse.length < enteredPlayers - 1)
      playableWhenHasLeadSuit playerHand currentHouse leadSuit trumpSuit
        (allowAceShortcut && !isLastToPlay)
    else
      playableWhenNoLeadSuit playerHand currentHouse trumpSuit

/-- One step of the loop inside `findHighestCard` of `utils/deck.ts`. -/
def findHighestCardStep (trumpSuit : Option Suit) (highest card : Card) : Card :=
  match trumpSuit with
  | some t =>
      if card.suit = t ∧ highest.suit ≠ t then card
      else if (card.suit = t ∧ highest.suit = t) ∨ (card.suit ≠ t ∧ highest.suit ≠ t) then
        if highest.value < card.value then card else highest
      else highest
  | none => if highest.value < card.value then card else highest

/-- The function `findHighestCard(cards, trumpSuit)` of `utils/deck.ts`:
highest card overall with trump beating non-trump; `null!` on the empty array
is modelled as `none`. The JS loop runs over the whole array starting from
`cards[0]`, comparing `cards[0]` with itself first. -/
def findHighestCard (cards : List Card) (trumpSuit : Option Suit) : Option Card :=
  match cards with
  | [] => none
  | c0 :: _ => some (cards.foldl (findHighestCardStep trumpSuit) c0)

/-- The function `calculateScore(initialScore, housesBuilt, enteredRound)` of
`utils/deck.ts`. -/
def calculateScore (initialScore : Int) (housesBuilt : Nat) (enteredRound : Bool) : Int :=
  if !enteredRound then initialScore
  else if housesBuilt = 0 then initialScore + 5
  else initialScore - housesBuilt

/-! ### Game state (`types/game.ts`) -/

/-- The `gamePhase` values of `types/game.ts`. -/
inductive Phase
  | waiting | ready | dealing | exchanging | trump_exchanging | playing | finished
deriving DecidableEq, Repr

/-- The `Player` record of `types/game.ts`; the string `id` becomes a `Nat`,
and the nullable boolean `enteredRound` becomes `Option Bool`
(`none` = undecided). -/
structure Player where
  id : Nat
  hand : List Card := []
  score : Int := 15
  isHost : Bool := false
  isReady : Bool := false
  housesBuilt : Nat := 0
  isDealer : Bool := false
  enteredRound : Option Bool := none
  hasExchanged : Bool := false
  isBot : Bool := false
deriving DecidableEq, Repr

/-- One entry of `currentHouse`: a played card with the seat that played it
(`playerName` is dropped: it is display-only). -/
structure HouseCard where
  card : Card
  playerId : Nat
deriving DecidableEq, Repr

/-- The `House` record of `types/game.ts` (a completed trick). The JS code
stores `game.leadSuit!` in `suit`, so the model keeps the `Option`. -/
structure House where
  cards : List Card
  winner : Nat
  suit : Option Suit
  highestCard : Card
deriving DecidableEq, Repr

/-- The mutable `GameState` of `types/game.ts`, restricted to the fields the
engine reads or writes (ids, timestamps and chat are dropped). -/
structure GameState where
  players : List Player
  currentPlayerIndex : Nat := 0
  deck : List Card := []
  tree : List Card := []
  trumpCard : Option Card := none
  gamePhase : Phase := .waiting
  roundNumber : Nat := 1
  currentHouse : List HouseCard := []
  houses : List House := []
  leadSuit : Option Suit := none
  dealerIndex : Nat := 0
deriving DecidableEq, Repr

/-- The ubiquitous `game.players.find(p => p.id === playerId)`. -/
def findPlayer (g : GameState) (pid : Nat) : Option Player :=
  g.players.find? (fun p => p.id = pid)

/-- In-place mutation of the player object returned by
`players.find(p => p.id === playerId)`: only the first player with the id is
changed. -/
def updateFirstPlayer : List Player → Nat → (Player → Player) → List Player
  | [], _, _ => []
  | p :: ps, pid, f =>
      if p.id = pid then f p :: ps else p :: updateFirstPlayer ps pid f

/-- In-place mutation `players[i] = f(players[i])` (out-of-range writes are
dropped, which never happens on the guarded call sites). -/
def modifyAt : List Player → Nat → (Player → Player) → List Player
  | [], _, _ => []
  | p :: ps, 0, f => f p :: ps
  | p :: ps, n + 1, f => p :: modifyAt ps n f

/-- `game.players.filter(p => p.enteredRound === true).length`. -/
def enteredCount (g : GameState) : Nat :=
  (g.players.filter (fun p => p.enteredRound = some true)).length

/-- `game.players.filter(p => p.enteredRound === false).length`. -/
def declinedCount (g : GameState) : Nat :=
  (g.players.filter (fun p => p.enteredRound = some false)).length

/-- `game.players.filter(p => p.enteredRound === undefined).length`. -/
def undecidedCount (g : GameState) : Nat :=
  (g.players.filter (fun p => p.enteredRound = none)).length

/-! ### GameStateManager -/

/-- The method `GameStateManager.canPlayerDecide`: whether a seat may freely
decline during dealing (`false` means the auto-entry rules apply or the seat
already decided). -/
def canPlayerDecide (g : GameState) (pid : Nat) : Bool :=
  match findPlayer g pid with
  | none => false
  | some p =>
    if p.enteredRound ≠ none then false
    else if undecidedCount g = 1 ∧ enteredCount g = 1 then false
    else if undecidedCount g ≤ 2 ∧ g.players.length - 2 ≤ declinedCount g then false
    else true

/-- The method `GameStateManager.playableCards`: delegate to
`findPlayableCards` on the seat's hand and the cards of the current house. -/
def gsmPlayableCards (g : GameState) (pid : Nat) : List Nat :=
  match findPlayer g pid with
  | none => []
  | some p =>
      findPlayableCards p.hand g.leadSuit (g.trumpCard.map (·.suit))
        (g.currentHouse.map (·.card)) (enteredCount g)

/-- The method `GameStateManager.completeHouse`: resolve the current trick,
credit the winner with a house, and make the winner the next seat to act.
The JS code dereferences `findHighestCard(...)` and uses `findIndex`
unconditionally; the model returns the state unchanged on the (unreachable)
missing cases. -/
def gsmCompleteHouse (g : GameState) : GameState :=
  let trumpSuit := g.trumpCard.map (·.suit)
  let cards := g.currentHouse.map (·.card)
  match findHighestCard cards trumpSuit with
  | none => g
  | some highestCard =>
    match g.currentHouse.find? (fun hc =>
        hc.card.suit = highestCard.suit ∧ hc.card.rank = highestCard.rank) with
    | none => g
    | some winningHouseCard =>
      match findPlayer g winningHouseCard.playerId with
      | none => g
      | some winner =>
        let house : House :=
          { cards := cards, winner := winner.id, suit := g.leadSuit,
            highestCard := highestCard }
        { g with
          players := updateFirstPlayer g.players winner.id
            (fun p => { p with housesBuilt := p.housesBuilt + 1 }),
          houses := g.houses ++ [house],
          currentPlayerIndex := g.players.findIdx (fun p => p.id = winner.id) }

/-- The method `GameStateManager.resetGameStateForNextRound`. -/
def gsmResetGameStateForNextRound (g : GameState) : GameState :=
  let players1 := g.players.map (fun p =>
    { p with hand := ([] : List Card), housesBuilt := 0, enteredRound := none,
             hasExchanged := false,
             isReady := if p.isBot then p.isReady else false,
             isDealer := false })
  let newDealer := (g.dealerIndex + 1) % players1.length
  let players2 := modifyAt players1 newDealer (fun p => { p with isDealer := true })
  { g with players := players2, dealerIndex := newDealer,
           roundNumber := g.roundNumber + 1,
           deck := [], tree := [], houses := [], trumpCard := none,
           currentHouse := [], leadSuit := none,
           currentPlayerIndex := (newDealer + 1) % players2.length }

/-- The method `GameStateManager.endGame`: apply `calculateScore` to every
seat, then either finish the game (some score ≤ 0) or reset for the next
round. -/
def gsmEndGame (g : GameState) : GameState :=
  let g1 := { g with players := g.players.map (fun p : Player =>
    { p with score := calculateScore p.score p.housesBuilt (decide (p.enteredRound = some true)) }) }
  if g1.players.any (fun p => p.score ≤ 0) then
    { g1 with gamePhase := .finished }
  else
    gsmResetGameStateForNextRound { g1 with gamePhase := .waiting }

/-! ### PlayerManager -/

/-- The method `PlayerManager.nextTurnEnter`: advance `currentPlayerIndex` by
one seat. -/
def pmNextTurnEnter (g : GameState) : GameState :=
  { g with currentPlayerIndex := (g.currentPlayerIndex + 1) % g.players.length }

/-- The loop `while (!players[nextIndex].enteredRound) nextIndex = (nextIndex+1) % len`
shared by `GameManager.nextTurn` and `PlayerManager.nextTurn`. The JS loop
does not terminate when no seat has entered; the model scans at most
`fuel = players.length` seats and keeps the reached index otherwise, which
agrees with the source whenever some seat has entered. -/
def nextEnteredIndexAux (ps : List Player) : Nat → Nat → Nat
  | i, 0 => i
  | i, fuel + 1 =>
    match ps.get? i with
    | some p =>
        if p.enteredRound = some true then i
        else nextEnteredIndexAux ps ((i + 1) % ps.length) fuel
    | none => i

/-- `GameManager.nextTurn` / `PlayerManager.nextTurn`: move
`currentPlayerIndex` to the next seat that entered the round. -/
def gmNextTurn (g : GameState) : GameState :=
  let i := nextEnteredIndexAux g.players ((g.currentPlayerIndex + 1) % g.players.length) g.players.length
  { g with currentPlayerIndex := i }

/-- The loop of `PlayerManager.nextTurnExchange`: next seat that entered but
has not exchanged yet (bounded like `nextEnteredIndexAux`). -/
def nextExchangeIndexAux (ps : List Player) : Nat → Nat → Nat
  | i, 0 => i
  | i, fuel + 1 =>
    match ps.get? i with
    | some p =>
        if p.enteredRound = some true ∧ ¬ p.hasExchanged then i
        else nextExchangeIndexAux ps ((i + 1) % ps.length) fuel
    | none => i

/-- The method `PlayerManager.nextTurnExchange`. -/
def pmNextTurnExchange (g : GameState) : GameState :=
  let i := nextExchangeIndexAux g.players ((g.currentPlayerIndex + 1) % g.players.length) g.players.length
  { g with currentPlayerIndex := i }

/-- The method `PlayerManager.setNextPlayerFirstTurn`: the first seat after
the dealer (scanning `dealerIndex + 1 .. dealerIndex + len`) that entered
becomes the current player; no seat entered leaves the index unchanged. -/
def pmSetNextPlayerFirstTurn (g : GameState) : GameState :=
  let candidates := (List.range g.players.length).map
    (fun k => (g.dealerIndex + k + 1) % g.players.length)
  match candidates.find? (fun i =>
      match g.players.get? i with
      | some p => p.enteredRound = some true
      | none => false) with
  | some i => { g with currentPlayerIndex := i }
  | none => g

/-- The method `PlayerManager.enterTurn`: the seat chooses to enter. -/
def pmEnterTurn (g : GameState) (pid : Nat) : GameState × Bool :=
  if g.gamePhase ≠ .dealing then (g, false)
  else
    match findPlayer g pid with
    | none => (g, false)
    | some _ =>
      let ps1 := updateFirstPlayer g.players pid (fun p => { p with enteredRound := some true })
      let g1 := { g with players := ps1 }
      if g1.players.all (fun p => p.enteredRound ≠ none) then
        ({ g1 with gamePhase := .exchanging,
                   currentPlayerIndex := (g1.dealerIndex + 1) % g1.players.length }, true)
      else (pmNextTurnEnter g1, true)

/-- The method `PlayerManager.skipTurn`: the seat declines the round. -/
def pmSkipTurn (g : GameState) (pid : Nat) : GameState × Bool :=
  if g.gamePhase ≠ .dealing then (g, false)
  else
    match findPlayer g pid with
    | none => (g, false)
    | some _ =>
      let ps1 := updateFirstPlayer g.players pid (fun p => { p with enteredRound := some false })
      let g1 := { g with players := ps1 }
      if g1.players.all (fun p => p.enteredRound ≠ none) then
        ({ g1 with gamePhase := .exchanging,
                   currentPlayerIndex := (g1.dealerIndex + 1) % g1.players.length }, true)
      else (pmNextTurnEnter g1, true)

/-- The worker for `player.hand.filter((_, index) => !cardIndices.includes(index))`
inside `PlayerManager.swapCards`; `start` is the index of the head of `l` in
the original hand. -/
def filterByIndexNotIn (l : List Card) (idxs : List Nat) (start : Nat) : List Card :=
  match l with
  | [] => []
  | c :: rest =>
      if start ∈ idxs then filterByIndexNotIn rest idxs (start + 1)
      else c :: filterByIndexNotIn rest idxs (start + 1)

/-- The hand/tree effect of `PlayerManager.swapCards`: draw as many cards from
the front of the tree as there are (in-bounds) exchanged indices, drop the
cards at the exchanged indices, append the drawn cards, then force the hand
back to size 5 (trim, or pad from the tree). Returns (new hand, new tree). -/
def swapCards (hand : List Card) (tree : List Card) (cardIndices : List Nat) :
    List Card × List Card :=
  let cardsToExchange := cardIndices.filterMap (fun i => hand.get? i)
  let newCards := tree.take cardsToExchange.length
  let tree1 := tree.drop cardsToExchange.length
  let hand1 := filterByIndexNotIn hand cardIndices 0 ++ newCards
  if hand1.length = 5 then (hand1, tree1)
  else if 5 < hand1.length then (hand1.take 5, tree1)
  else if hand1.length < 5 ∧ tree1 ≠ [] then
    (hand1 ++ tree1.take (5 - hand1.length), tree1.drop (5 - hand1.length))
  else (hand1, tree1)

/-- The method `PlayerManager.exchangeCards` together with the phase-advance
logic that follows the swap. -/
def pmExchangeCards (g : GameState) (pid : Nat) (cardIndices : List Nat) :
    GameState × Bool :=
  if g.gamePhase ≠ .exchanging then (g, false)
  else
    match findPlayer g pid with
    | none => (g, false)
    | some p =>
      if p.enteredRound ≠ some true ∨ g.tree = [] then (g, false)
      else if g.tree.length < cardIndices.length then (g, false)
      else
        let sw := swapCards p.hand g.tree cardIndices
        let ps1 := updateFirstPlayer g.players pid
          (fun q => { q with hand := sw.1, hasExchanged := true })
        let g1 := { g with tree := sw.2, players := ps1 }
        let allExchanged : Bool :=
          (g1.players.filter (fun q => q.enteredRound = some true)).all (·.hasExchanged)
        if allExchanged || g1.tree.isEmpty then
          match g1.players.get? g1.dealerIndex with
          | some dealer =>
            if dealer.enteredRound ≠ some true then
              (pmSetNextPlayerFirstTurn { g1 with gamePhase := .playing }, true)
            else
              ({ g1 with gamePhase := .trump_exchanging,
                         currentPlayerIndex := g1.dealerIndex }, true)
          | none => (g1, true)
        else (pmNextTurnExchange g1, true)

/-- The method `PlayerManager.exchangeTrump`: the dealer swaps one hand card
for the face-up trump card (`cardIndex = -1` skips). The JS code assigns
`player.hand[cardIndex] = game.trumpCard` and leaves `game.trumpCard` as is. -/
def pmExchangeTrump (g : GameState) (pid : Nat) (cardIndex : Int) : GameState × Bool :=
  if g.gamePhase ≠ .trump_exchanging then (g, false)
  else
    match findPlayer g pid, g.trumpCard with
    | none, _ => (g, false)
    | some _, none => (g, false)
    | some p, some trumpCard =>
      if p.enteredRound ≠ some true ∨ ¬ p.isDealer then (g, false)
      else if cardIndex = -1 then
        let ps1 := updateFirstPlayer g.players pid (fun q => { q with hasExchanged := true })
        (pmSetNextPlayerFirstTurn { g with players := ps1, gamePhase := .playing }, true)
      else if cardIndex < 0 ∨ (p.hand.length : Int) ≤ cardIndex then (g, false)
      else
        let ps1 := updateFirstPlayer g.players pid
          (fun q => { q with hand := q.hand.set cardIndex.toNat trumpCard, hasExchanged := true })
        (pmSetNextPlayerFirstTurn { g with players := ps1, gamePhase := .playing }, true)

/-- The hand/tree effect of `PlayerManager.validateAndFixHand`. In the typed
model the hand holds no null entries, so the null-filtering step keeps the
hand unchanged; during the playing phase the hand is trimmed to 5 or refilled
from the front of the tree toward 5 cards. -/
def validateAndFixHand (phase : Phase) (hand : List Card) (tree : List Card) :
    List Card × List Card :=
  if phase = .playing then
    if 5 < hand.length then (hand.take 5, tree)
    else if hand.length < 5 ∧ tree ≠ [] then
      let available := min (5 - hand.length) tree.length
      (hand ++ tree.take available, tree.drop available)
    else (hand, tree)
  else (hand, tree)

/-- The method `PlayerManager.playCard`: validate phase/turn, run
`validateAndFixHand`, then remove the card at `cardIndex` from the hand and
append it to the current house (setting the lead suit on the first card).
The fix-up mutation persists even when the later bounds check fails, exactly
as in the source. -/
def pmPlayCard (g : GameState) (pid : Nat) (cardIndex : Nat) : GameState × Bool :=
  if g.gamePhase ≠ .playing then (g, false)
  else
    match findPlayer g pid with
    | none => (g, false)
    | some p =>
      if p.enteredRound ≠ some true then (g, false)
      else if ((g.players.get? g.currentPlayerIndex).map (·.id)) ≠ some pid then (g, false)
      else
        let fixed := validateAndFixHand g.gamePhase p.hand g.tree
        let ps1 := updateFirstPlayer g.players pid (fun q => { q with hand := fixed.1 })
        let g1 := { g with tree := fixed.2, players := ps1 }
        match fixed.1.get? cardIndex with
        | none => (g1, false)
        | some card =>
          let ps2 := updateFirstPlayer g1.players pid
            (fun q => { q with hand := q.hand.eraseIdx cardIndex })
          let g2 := { g1 with players := ps2, currentHouse := g1.currentHouse ++ [⟨card, pid⟩] }
          if g2.currentHouse.length = 1 then
            ({ g2 with leadSuit := some card.suit }, true)
          else (g2, true)

/-! ### GameManager -/

/-- The method `GameManager.enterTurn` (per game): delegates to
`PlayerManager.enterTurn`. -/
def gmEnterTurn (g : GameState) (pid : Nat) : GameState × Bool :=
  pmEnterTurn g pid

/-- The method `GameManager.skipTurn` (per game): when `canPlayerDecide`
denies the decline, the seat is forced to enter (`enteredRound = true`), the
turn advances, and the call reports failure; otherwise the decline is
delegated to `PlayerManager.skipTurn`. -/
def gmSkipTurn (g : GameState) (pid : Nat) : GameState × Bool :=
  if ¬ canPlayerDecide g pid then
    match findPlayer g pid with
    | some _ =>
        let ps1 := updateFirstPlayer g.players pid (fun p => { p with enteredRound := some true })
        (gmNextTurn { g with players := ps1 }, false)
    | none => (g, false)
  else pmSkipTurn g pid

/-- The method `GameManager.playableCards` (per game): empty outside the
playing phase, else `GameStateManager.playableCards`. -/
def gmPlayableCards (g : GameState) (pid : Nat) : List Nat :=
  if g.gamePhase ≠ .playing then [] else gsmPlayableCards g pid

/-- The method `GameManager.playCard` (per game): reject an index outside
`playableCards`, play through `PlayerManager.playCard`, then resolve a
completed house or advance the turn, and end the round after the fifth
house. -/
def gmPlayCard (g : GameState) (pid : Nat) (cardIndex : Nat) : GameState × Bool :=
  if ¬ (gmPlayableCards g pid).contains cardIndex then (g, false)
  else
    let r := pmPlayCard g pid cardIndex
    if r.2 then
      let g2 :=
        if r.1.currentHouse.length =
            (r.1.players.filter (fun p => p.enteredRound = some true)).length then
          gsmCompleteHouse r.1
        else gmNextTurn r.1
      let g3 := if g2.houses.length = 5 then gsmEndGame g2 else g2
      (g3, true)
    else (r.1, false)

/-! ### Observables and reachability -/

/-- All cards currently in play: every hand, the tree, the face-up trump card,
the cards of the current house and of every completed house (the multiset the
card-conservation invariant of the specification speaks about). -/
def cardsInPlay (g : GameState) : List Card :=
  (g.players.map (·.hand)).flatten ++ g.tree ++ g.trumpCard.toList ++
    g.currentHouse.map (·.card) ++ (g.houses.map (·.cards)).flatten

/-- One entry-decision action during the dealing phase: a seat (any seat, any
order) calls `GameManager.enterTurn` or `GameManager.skipTurn`. -/
inductive DecStep : GameState → GameState → Prop
  | enter (g : GameState) (pid : Nat) : DecStep g (gmEnterTurn g pid).1
  | skip (g : GameState) (pid : Nat) : DecStep g (gmSkipTurn g pid).1

/-- States reachable from `g0` by entry-decision actions. -/
inductive DecReach (g0 : GameState) : GameState → Prop
  | refl : DecReach g0 g0
  | tail {g1 g2 : GameState} : DecReach g0 g1 → DecStep g1 g2 → DecReach g0 g2

/-- A freshly dealt state as produced by `initializeGameState`: the dealing
phase with every seat still undecided, at a table of at least two seats. -/
def FreshDeal (g : GameState) : Prop :=
  g.gamePhase = .dealing ∧ 2 ≤ g.players.length ∧
    ∀ p ∈ g.players, p.enteredRound = none

/-! ### Lemmas about the index helpers -/

theorem mem_indicesWhereAux {p : Card → Bool} :
    ∀ (l : List Card) (s i : Nat),
      i ∈ indicesWhereAux p l s ↔ ∃ j c, l.get? j = some c ∧ p c = true ∧ i = s + j := by
  intro l
  induction l with
  | nil => intro s i; simp [indicesWhereAux]
  | cons c rest ih =>
    intro s i
    constructor
    · intro h
      by_cases hpc : p c = true
      · rw [indicesWhereAux, if_pos hpc] at h
        rcases List.mem_cons.mp h with h0 | h1
        · exact ⟨0, c, rfl, hpc, by omega⟩
        · rcases (ih (s + 1) i).mp h1 with ⟨j, c', hg, hp, hi⟩
          exact ⟨j + 1, c', by simpa using hg, hp, by omega⟩
      · rw [indicesWhereAux, if_neg hpc] at h
        rcases (ih (s + 1) i).mp h with ⟨j, c', hg, hp, hi⟩
        exact ⟨j + 1, c', by simpa using hg, hp, by omega⟩
    · rintro ⟨j, c', hg, hp, rfl⟩
      cases j with
      | zero =>
        simp only [List.get?_cons_zero, Option.some.injEq] at hg
        subst hg
        rw [indicesWhereAux, if_pos hp]
        simp
      | succ j =>
        have h1 : (s + 1) + j ∈ indicesWhereAux p rest (s + 1) :=
          (ih (s + 1) _).mpr ⟨j, c', by simpa using hg, hp, rfl⟩
        have he : s + (j + 1) = (s + 1) + j := by omega
        rw [indicesWhereAux, he]
        by_cases hpc : p c = true
        · rw [if_pos hpc]; exact List.mem_cons_of_mem _ h1
        · rw [if_neg hpc]; exact h1

theorem mem_indicesWhere {l : List Card} {p : Card → Bool} {i : Nat} :
    i ∈ indicesWhere l p ↔ ∃ c, l.get? i = some c ∧ p c = true := by
  unfold indicesWhere
  rw [mem_indicesWhereAux]
  constructor
  · rintro ⟨j, c, hg, hp, rfl⟩
    exact ⟨c, by simpa using hg, hp⟩
  · rintro ⟨c, hg, hp⟩
    exact ⟨i, c, hg, hp, by omega⟩

theorem indicesWhere_bound {l : List Card} {p : Card → Bool} {i : Nat}
    (h : i ∈ indicesWhere l p) : i < l.length := by
  rcases mem_indicesWhere.mp h with ⟨c, hg, -⟩
  exact List.get?_eq_some.mp hg |>.1

theorem indicesWhere_ne_nil {l : List Card} {p : Card → Bool}
    (h : l.any p = true) : indicesWhere l p ≠ [] := by
  rcases List.any_eq_true.mp h with ⟨c, hc, hpc⟩
  rcases List.mem_iff_get?.mp hc with ⟨j, hj⟩
  exact List.ne_nil_of_mem (mem_indicesWhere.mpr ⟨c, hj, hpc⟩)

theorem findIndexAux_eq_some {p : Card → Bool} :
    ∀ (l : List Card) (s i : Nat), findIndexAux p l s = some i →
      ∃ j c, l.get? j = some c ∧ p c = true ∧ i = s + j := by
  intro l
  induction l with
  | nil => intro s i h; simp [findIndexAux] at h
  | cons c rest ih =>
    intro s i h
    rw [findIndexAux] at h
    by_cases hpc : p c = true
    · rw [if_pos hpc] at h
      have hsi : s = i := Option.some.inj h
      exact ⟨0, c, rfl, hpc, by omega⟩
    · rw [if_neg hpc] at h
      rcases ih (s + 1) i h with ⟨j, c', hg, hp, hi⟩
      exact ⟨j + 1, c', by simpa using hg, hp, by omega⟩

theorem findIndexAux_isSome {p : Card → Bool} :
    ∀ (l : List Card) (s : Nat), l.any p = true → (findIndexAux p l s).isSome = true := by
  intro l
  induction l with
  | nil => intro s h; simp at h
  | cons c rest ih =>
    intro s h
    rw [findIndexAux]
    by_cases hpc : p c = true
    · rw [if_pos hpc]; rfl
    · rw [if_neg hpc]
      apply ih
      rcases List.any_eq_true.mp h with ⟨d, hd, hpd⟩
      rcases List.mem_cons.mp hd with rfl | hd'
      · exact absurd hpd hpc
      · exact List.any_eq_true.mpr ⟨d, hd', hpd⟩

theorem findIndexAux_eq_none {p : Card → Bool} :
    ∀ (l : List Card) (s : Nat), (∀ c ∈ l, p c = false) → findIndexAux p l s = none := by
  intro l
  induction l with
  | nil => intro s _; rfl
  | cons c rest ih =>
    intro s h
    rw [findIndexAux, if_neg (by simp [h c (List.mem_cons_self c rest)])]
    exact ih (s + 1) (fun d hd => h d (List.mem_cons_of_mem c hd))

/-! ### Lemmas about `valueMaxStep` folds and `findHighestCardInSuit` -/

theorem valueMaxStep_or (a b : Card) : valueMaxStep a b = a ∨ valueMaxStep a b = b := by
  unfold valueMaxStep
  split <;> simp

theorem foldl_valueMaxStep_mem :
    ∀ (l : List Card) (a : Card), l.foldl valueMaxStep a = a ∨ l.foldl valueMaxStep a ∈ l := by
  intro l
  induction l with
  | nil => intro a; left; rfl
  | cons c rest ih =>
    intro a
    rw [List.foldl_cons]
    rcases ih (valueMaxStep a c) with h | h
    · rw [h]
      rcases valueMaxStep_or a c with h' | h'
      · left; exact h'
      · right; rw [h']; exact List.mem_cons_self c rest
    · right; exact List.mem_cons_of_mem c h

theorem foldl_valueMaxStep_ge_init :
    ∀ (l : List Card) (a : Card), a.value ≤ (l.foldl valueMaxStep a).value := by
  intro l
  induction l with
  | nil => intro a; exact le_refl _
  | cons c rest ih =>
    intro a
    rw [List.foldl_cons]
    refine le_trans ?_ (ih (valueMaxStep a c))
    unfold valueMaxStep
    split <;> omega

theorem foldl_valueMaxStep_ge :
    ∀ (l : List Card) (a : Card), ∀ d ∈ l, d.value ≤ (l.foldl valueMaxStep a).value := by
  intro l
  induction l with
  | nil => intro a d hd; simp at hd
  | cons c rest ih =>
    intro a d hd
    rw [List.foldl_cons]
    rcases List.mem_cons.mp hd with rfl | hd'
    · refine le_trans ?_ (foldl_valueMaxStep_ge_init rest (valueMaxStep a d))
      unfold valueMaxStep
      split <;> omega
    · exact ih (valueMaxStep a c) d hd'

theorem findHighestCardInSuit_eq_some {cards : List Card} {suit trump : Option Suit}
    {c : Card} (h : findHighestCardInSuit cards suit trump = some c) :
    c ∈ cards ∧ inSuitNonTrump suit trump c = true ∧
      ∀ d ∈ cards, inSuitNonTrump suit trump d = true → d.value ≤ c.value := by
  simp only [findHighestCardInSuit] at h
  rcases hfil : cards.filter (inSuitNonTrump suit trump) with - | ⟨c0, rest⟩
  · rw [hfil] at h; exact absurd h (by simp)
  · rw [hfil] at h
    simp only [Option.some.injEq] at h
    have hmemf : c ∈ cards.filter (inSuitNonTrump suit trump) := by
      rw [hfil, ← h]
      rcases foldl_valueMaxStep_mem (c0 :: rest) c0 with h' | h'
      · rw [h']; exact List.mem_cons_self _ _
      · exact h'
    have hmc := List.mem_filter.mp hmemf
    refine ⟨hmc.1, hmc.2, ?_⟩
    intro d hd hpd
    have hdf : d ∈ cards.filter (inSuitNonTrump suit trump) := List.mem_filter.mpr ⟨hd, hpd⟩
    rw [hfil] at hdf
    rw [← h]
    exact foldl_valueMaxStep_ge (c0 :: rest) c0 d hdf

theorem findHighestCardInSuit_eq_none {cards : List Card} {suit trump : Option Suit} :
    findHighestCardInSuit cards suit trump = none ↔
      ∀ d ∈ cards, ¬ inSuitNonTrump suit trump d = true := by
  simp only [findHighestCardInSuit]
  rcases hfil : cards.filter (inSuitNonTrump suit trump) with - | ⟨c0, rest⟩
  · simp only [true_iff]
    intro d hd hpd
    exact absurd (List.mem_filter.mpr ⟨hd, hpd⟩) (by rw [hfil]; simp)
  · constructor
    · intro h; exact absurd h (by simp)
    · intro hall
      have hc0 := List.mem_filter.mp (hfil ▸ List.mem_cons_self c0 rest)
      exact absurd hc0.2 (hall c0 hc0.1)

/-! ### Bounds and progress of the playable-cards algorithm -/

theorem mem_playableWhenHasLeadSuit_lt {hand house : List Card} {ls ts : Option Suit}
    {flag : Bool} {i : Nat} (h : i ∈ playableWhenHasLeadSuit hand house ls ts flag) :
    i < hand.length := by
  cases ls with
  | none =>
    simp only [playableWhenHasLeadSuit, allIndices] at h
    exact List.mem_range.mp h
  | some s =>
    simp only [playableWhenHasLeadSuit] at h
    split at h
    · rename_i aceIdx hace
      split at hace
      · obtain rfl := List.mem_singleton.mp h
        simp only [firstAceIndexInSuit] at hace
        rcases findIndexAux_eq_some hand 0 _ hace with ⟨j, c, hg, -, hj⟩
        have := List.get?_eq_some.mp hg |>.1
        omega
      · exact absurd hace (by simp)
    · split at h
      · exact indicesWhere_bound h
      · exact indicesWhere_bound h

theorem mem_playableWhenNoLeadSuit_lt {hand house : List Card} {ts : Option Suit}
    {i : Nat} (h : i ∈ playableWhenNoLeadSuit hand house ts) : i < hand.length := by
  cases ts with
  | none =>
    simp only [playableWhenNoLeadSuit, allIndices] at h
    exact List.mem_range.mp h
  | some t =>
    simp only [playableWhenNoLeadSuit] at h
    split at h
    · split at h
      · exact indicesWhere_bound h
      · exact List.mem_range.mp (by simpa [allIndices] using h)
    · split at h
      · split at h
        · exact indicesWhere_bound h
        · exact indicesWhere_bound h
      · exact List.mem_range.mp (by simpa [allIndices] using h)

theorem mem_findPlayableCards_lt {hand house : List Card} {ls ts : Option Suit}
    {entered i : Nat} (h : i ∈ findPlayableCards hand ls ts house entered) :
    i < hand.length := by
  simp only [findPlayableCards] at h
  split at h
  · exact List.mem_range.mp h
  · split at h
    · exact mem_playableWhenHasLeadSuit_lt h
    · exact mem_playableWhenNoLeadSuit_lt h

theorem optGtVal_eq_true {oc : Option Card} {v : Nat} (h : optGtVal oc v = true) :
    ∃ m, oc = some m ∧ v < m.value := by
  cases oc with
  | none => simp [optGtVal] at h
  | some m => exact ⟨m, rfl, by simpa [optGtVal] using h⟩

theorem playableWhenNoLeadSuit_ne_nil {hand house : List Card} {ts : Option Suit}
    (hne : hand ≠ []) : playableWhenNoLeadSuit hand house ts ≠ [] := by
  have hrange : List.range hand.length ≠ [] := by
    simpa using fun hlen => hne (List.length_eq_zero.mp hlen)
  cases ts with
  | none => simpa [playableWhenNoLeadSuit, allIndices] using hrange
  | some t =>
    simp only [playableWhenNoLeadSuit]
    split
    · split
      · rename_i hht
        exact indicesWhere_ne_nil (by simpa [hasSuit] using hht)
      · simpa [allIndices] using hrange
    · rename_i h hh
      split
      · rename_i hht
        split
        · rename_i hgt
          rcases optGtVal_eq_true hgt with ⟨m, hm, hv⟩
          rcases findHighestCardInSuit_eq_some hm with ⟨hmem, hpred, -⟩
          have hsuit : m.suit = t := by
            simpa [inSuitNonTrump] using hpred
          apply indicesWhere_ne_nil
          exact List.any_eq_true.mpr ⟨m, hmem, by simp [hsuit, gtMin, hv]⟩
        · rename_i hht2
          exact indicesWhere_ne_nil (by simpa [hasSuit] using hht)
      · simpa [allIndices] using hrange

theorem playableWhenHasLeadSuit_ne_nil {hand house : List Card} {s : Suit}
    {ts : Option Suit} {flag : Bool} (hhs : hand.any (fun c => c.suit = s) = true) :
    playableWhenHasLeadSuit hand house (some s) ts flag ≠ [] := by
  simp only [playableWhenHasLeadSuit]
  split
  · simp
  · split
    · rename_i hcb
      rcases List.any_eq_true.mp hcb with ⟨c, hc, hpc⟩
      rcases List.mem_iff_get?.mp hc with ⟨j, hj⟩
      exact List.ne_nil_of_mem (mem_indicesWhere.mpr ⟨c, hj, hpc⟩)
    · exact indicesWhere_ne_nil hhs

theorem findPlayableCards_ne_nil {hand house : List Card} {ls ts : Option Suit}
    {entered : Nat} (hne : hand ≠ []) :
    findPlayableCards hand ls ts house entered ≠ [] := by
  have hrange : List.range hand.length ≠ [] := by
    simpa using fun hlen => hne (List.length_eq_zero.mp hlen)
  simp only [findPlayableCards]
  split
  · exact hrange
  · split
    · rename_i hfl
      cases ls with
      | none => simp [hasSuit] at hfl
      | some s =>
        exact playableWhenHasLeadSuit_ne_nil (by simpa [hasSuit] using hfl)
    · exact playableWhenNoLeadSuit_ne_nil hne

/-- C10: for every non-empty hand, any lead and trump suit, and any current
house with at least two entered seats and at most `entered - 1` cards on the
table, `findPlayableCards` returns a non-empty list of indices inside
`[0, hand.length)`: the seat about to act always has a legal card. -/
theorem findPlayableCards_progress (hand : List Card) (ls ts : Option Suit)
    (house : List Card) (entered : Nat) (hne : hand ≠ [])
    (_hent : 2 ≤ entered) (_hlen : house.length ≤ entered - 1) :
    findPlayableCards hand ls ts house entered ≠ [] ∧
      ∀ i ∈ findPlayableCards hand ls ts house entered, i < hand.length :=
  ⟨findPlayableCards_ne_nil hne, fun _ h => mem_findPlayableCards_lt h⟩

/-- Witness for C10 at a concrete input. -/
theorem findPlayableCards_progress_witness :
    findPlayableCards [mkCard .hearts .r7] none none [] 2 ≠ [] ∧
      ∀ i ∈ findPlayableCards [mkCard .hearts .r7] none none [] 2,
        i < ([mkCard .hearts .r7] : List Card).length :=
  findPlayableCards_progress [mkCard .hearts .r7] none none [] 2
    (by decide) (by decide) (by decide)

/-- C1: during play, when the current house is non-empty, the seat is not the
last to act (`currentHouse.length < enteredPlayers - 1`), and the hand holds
the (unique) Ace of the lead suit, `findPlayableCards` returns exactly the
index of that Ace. -/
theorem forcedAce_only_legal (hand house : List Card) (s : Suit) (ts : Option Suit)
    (entered j : Nat) (c : Card)
    (hhouse : house ≠ []) (hmid : house.length < entered - 1)
    (hj : hand.get? j = some c) (hsuit : c.suit = s) (hrank : c.rank = Rank.ace)
    (huniq : ∀ k ∈ indicesWhere hand
      (fun d => decide (d.suit = s) && decide (d.rank = Rank.ace)), k = j) :
    findPlayableCards hand (some s) ts house entered = [j] := by
  have hlen0 : house.length ≠ 0 := by
    simpa using fun h => hhouse (List.length_eq_zero.mp h)
  have hcmem : c ∈ hand := List.mem_iff_get?.mpr ⟨j, hj⟩
  have hfl : hasSuit hand (some s) = true := by
    simp only [hasSuit]
    exact List.any_eq_true.mpr ⟨c, hcmem, by simp [hsuit]⟩
  have hace : hand.any (fun d => decide (d.suit = s) && decide (d.rank = Rank.ace)) = true :=
    List.any_eq_true.mpr ⟨c, hcmem, by simp [hsuit, hrank]⟩
  have hflag : (decide (1 ≤ house.length) && decide (house.length < entered - 1) &&
      !decide (house.length = entered - 1)) = true := by
    have h1 : 1 ≤ house.length := Nat.one_le_iff_ne_zero.mpr hlen0
    have h2 : house.length ≠ entered - 1 := by omega
    simp [h1, hmid, h2]
  simp only [findPlayableCards, if_neg hlen0, hfl, if_true, hflag]
  simp only [playableWhenHasLeadSuit]
  have hsome : (firstAceIndexInSuit hand (some s)).isSome = true := by
    simpa [firstAceIndexInSuit] using findIndexAux_isSome hand 0 hace
  rcases Option.isSome_iff_exists.mp hsome with ⟨aceIdx, haceIdx⟩
  have haj : aceIdx = j := by
    rcases findIndexAux_eq_some hand 0 aceIdx (by simpa [firstAceIndexInSuit] using haceIdx)
      with ⟨j', c', hg, hp, hj'⟩
    have hmem : j' ∈ indicesWhere hand
        (fun d => decide (d.suit = s) && decide (d.rank = Rank.ace)) :=
      mem_indicesWhere.mpr ⟨c', hg, hp⟩
    have := huniq j' hmem
    omega
  simp only [if_true, haceIdx, haj]

/-- Witness for C1: three seats in the trick, one card played, the hand holds
A♥ at index 1. -/
theorem forcedAce_only_legal_witness :
    findPlayableCards [mkCard .hearts .r9, mkCard .hearts .ace, mkCard .clubs .r7]
      (some .hearts) (some .spades) [mkCard .hearts .r7] 5 = [1] :=
  forcedAce_only_legal
    [mkCard .hearts .r9, mkCard .hearts .ace, mkCard .clubs .r7]
    [mkCard .hearts .r7] .hearts (some .spades) 5 1 (mkCard .hearts .ace)
    (by decide) (by decide) (by decide) (by decide) (by decide)
    (by decide)

/-! ### The must-beat branch (claim C2) -/

/-- C2 counterexample: with spades both lead suit and trump suit, a trick
holding Q♠ (value 12), and a hand [K♠, 7♠] whose K♠ (value 13) strictly beats
the highest lead-suit card on the table, the seat being last to act,
`findPlayableCards` returns both indices, not only the strictly higher K♠:
the implementation measures the threshold over non-trump lead cards only. -/
theorem mustBeat_counterexample :
    findPlayableCards [mkCard .spades .king, mkCard .spades .r7] (some .spades)
        (some .spades) [mkCard .spades .queen] 2 = [0, 1] ∧
      (mkCard .spades .queen).value < (mkCard .spades .king).value ∧
      (mkCard .spades .r7).value < (mkCard .spades .queen).value := by
  decide

/-- C2 (amended): when the seat can follow the lead suit, the house is
non-empty and the forced-ace rule does not apply, the threshold is the
highest-value **non-trump** lead-suit card of the house (`none`, i.e. beaten
by everything, when the lead suit is the trump suit): if some lead-suit card
of the hand exceeds it, exactly the indices of the exceeding lead-suit cards
are legal, otherwise exactly the indices of all lead-suit cards. -/
theorem mustBeat_nonTrumpThreshold (hand house : List Card) (s : Suit) (ts : Option Suit)
    (entered : Nat)
    (hfl : hand.any (fun c => c.suit = s) = true)
    (hhouse : house ≠ [])
    (hnoace : house.length = entered - 1 ∨
      ∀ c ∈ hand, ¬(c.suit = s ∧ c.rank = Rank.ace)) :
    (ts = some s → findHighestCardInSuit house (some s) ts = none) ∧
    (∀ t h', ts = some t → t ≠ s → findHighestCardInSuit house (some s) ts = some h' →
      h' ∈ house ∧ h'.suit = s ∧ ∀ d ∈ house, d.suit = s → d.value ≤ h'.value) ∧
    ((∃ c ∈ hand, c.suit = s ∧
        gtMin (optValue (findHighestCardInSuit house (some s) ts)) c.value = true) →
      ∀ i, i ∈ findPlayableCards hand (some s) ts house entered ↔
        ∃ c, hand.get? i = some c ∧ c.suit = s ∧
          gtMin (optValue (findHighestCardInSuit house (some s) ts)) c.value = true) ∧
    ((¬ ∃ c ∈ hand, c.suit = s ∧
        gtMin (optValue (findHighestCardInSuit house (some s) ts)) c.value = true) →
      ∀ i, i ∈ findPlayableCards hand (some s) ts house entered ↔
        ∃ c, hand.get? i = some c ∧ c.suit = s) := by
  have hlen0 : house.length ≠ 0 := by
    simpa using fun h => hhouse (List.length_eq_zero.mp h)
  have hfl' : hasSuit hand (some s) = true := by simpa [hasSuit] using hfl
  have hred : findPlayableCards hand (some s) ts house entered =
      (if hand.any (fun c => c.suit = s &&
          gtMin (optValue (findHighestCardInSuit house (some s) ts)) c.value) = true
       then higherThanInSuit hand (some s)
          (optValue (findHighestCardInSuit house (some s) ts))
       else suitIndices hand (some s)) := by
    simp only [findPlayableCards, if_neg hlen0, hfl', if_true]
    simp only [playableWhenHasLeadSuit]
    rcases hnoace with hlast | hnoace
    · simp [hlast]
    · have hnone : firstAceIndexInSuit hand (some s) = none := by
        simp only [firstAceIndexInSuit]
        refine findIndexAux_eq_none hand 0 (fun c hc => ?_)
        have := hnoace c hc
        simp only [Bool.and_eq_false_iff, decide_eq_false_iff_not]
        tauto
      rw [hnone, ite_self]
  refine ⟨?_, ?_, ?_, ?_⟩
  · rintro rfl
    refine findHighestCardInSuit_eq_none.mpr (fun d _ hpd => ?_)
    simp only [inSuitNonTrump, Bool.and_eq_true, decide_eq_true_eq] at hpd
    exact hpd.2 hpd.1
  · rintro t h' rfl hts hsome
    rcases findHighestCardInSuit_eq_some hsome with ⟨hmem, hpred, hmax⟩
    have hs' : h'.suit = s := by
      have h2 := hpred
      simp only [inSuitNonTrump, Bool.and_eq_true, decide_eq_true_eq] at h2
      exact h2.1
    refine ⟨hmem, hs', fun d hd hds => hmax d hd ?_⟩
    simp only [inSuitNonTrump, Bool.and_eq_true, decide_eq_true_eq]
    exact ⟨hds, by rw [hds]; exact fun h => hts h.symm⟩
  · intro hcb i
    have hany : hand.any (fun c => c.suit = s &&
        gtMin (optValue (findHighestCardInSuit house (some s) ts)) c.value) = true := by
      rcases hcb with ⟨c, hc, hcs, hcv⟩
      exact List.any_eq_true.mpr ⟨c, hc, by simp [hcs, hcv]⟩
    rw [hred, if_pos hany]
    simp only [higherThanInSuit]
    rw [mem_indicesWhere]
    constructor
    · rintro ⟨c, hg, hpc⟩
      simp only [Bool.and_eq_true, decide_eq_true_eq] at hpc
      exact ⟨c, hg, hpc.1, hpc.2⟩
    · rintro ⟨c, hg, hcs, hcv⟩
      exact ⟨c, hg, by simp [hcs, hcv]⟩
  · intro hcb i
    have hany : hand.any (fun c => c.suit = s &&
        gtMin (optValue (findHighestCardInSuit house (some s) ts)) c.value) = false := by
      rw [← Bool.not_eq_true]
      intro h
      rcases List.any_eq_true.mp h with ⟨c, hc, hpc⟩
      simp only [Bool.and_eq_true, decide_eq_true_eq] at hpc
      exact hcb ⟨c, hc, hpc.1, hpc.2⟩
    rw [hred, if_neg (by simp [hany])]
    simp only [suitIndices]
    rw [mem_indicesWhere]
    constructor
    · rintro ⟨c, hg, hpc⟩
      exact ⟨c, hg, by simpa using hpc⟩
    · rintro ⟨c, hg, hcs⟩
      exact ⟨c, hg, by simp [hcs]⟩

/-- Witness for C2 (amended) with a non-trump lead suit: hand [K♥, 7♥],
house [Q♥], trump spades, last seat of two. -/
theorem mustBeat_nonTrumpThreshold_witness :
    ((some Suit.spades = some Suit.hearts) →
      findHighestCardInSuit [mkCard .hearts .queen] (some .hearts) (some .spades) = none) ∧
    (∀ t h', (some Suit.spades = some t) → t ≠ Suit.hearts →
      findHighestCardInSuit [mkCard .hearts .queen] (some .hearts) (some .spades) = some h' →
      h' ∈ [mkCard .hearts .queen] ∧ h'.suit = Suit.hearts ∧
        ∀ d ∈ [mkCard .hearts .queen], d.suit = Suit.hearts → d.value ≤ h'.value) ∧
    ((∃ c ∈ [mkCard .hearts .king, mkCard .hearts .r7], c.suit = Suit.hearts ∧
        gtMin (optValue (findHighestCardInSuit [mkCard .hearts .queen]
          (some .hearts) (some .spades))) c.value = true) →
      ∀ i, i ∈ findPlayableCards [mkCard .hearts .king, mkCard .hearts .r7] (some .hearts)
          (some .spades) [mkCard .hearts .queen] 2 ↔
        ∃ c, ([mkCard .hearts .king, mkCard .hearts .r7] : List Card).get? i = some c ∧
          c.suit = Suit.hearts ∧
          gtMin (optValue (findHighestCardInSuit [mkCard .hearts .queen]
            (some .hearts) (some .spades))) c.value = true) ∧
    ((¬ ∃ c ∈ [mkCard .hearts .king, mkCard .hearts .r7], c.suit = Suit.hearts ∧
        gtMin (optValue (findHighestCardInSuit [mkCard .hearts .queen]
          (some .hearts) (some .spades))) c.value = true) →
      ∀ i, i ∈ findPlayableCards [mkCard .hearts .king, mkCard .hearts .r7] (some .hearts)
          (some .spades) [mkCard .hearts .queen] 2 ↔
        ∃ c, ([mkCard .hearts .king, mkCard .hearts .r7] : List Card).get? i = some c ∧
          c.suit = Suit.hearts) :=
  mustBeat_nonTrumpThreshold [mkCard .hearts .king, mkCard .hearts .r7]
    [mkCard .hearts .queen] Suit.hearts (some .spades) 2
    (by decide) (by decide) (Or.inl (by decide))

/-! ### Trump and overtrump when void in the lead suit (claim C3) -/

theorem findHighestCardInSuit_isSome_of_mem (suit trump : Option Suit) {cards : List Card}
    {c : Card} (hc : c ∈ cards) (hp : inSuitNonTrump suit trump c = true) :
    ∃ h', findHighestCardInSuit cards suit trump = some h' := by
  rcases hfil : findHighestCardInSuit cards suit trump with - | h'
  · exact absurd hp (findHighestCardInSuit_eq_none.mp hfil c hc)
  · exact ⟨h', rfl⟩

/-- C3: with a non-empty house, a defined trump suit `t`, and a hand holding
no lead-suit card, `findPlayableCards` follows the trump requirements:
if no trump has been played to the house, all trump indices when the hand has
trump, else every index; if the highest trump on the table is `h'`, exactly
the indices of trump cards above `h'.value` when one exists, else all trump
indices when the hand has trump, else every index. -/
theorem trumpWhenVoid_legal (hand house : List Card) (s t : Suit) (entered : Nat)
    (hvoid : ∀ c ∈ hand, c.suit ≠ s) (hhouse : house ≠ []) :
    ((∀ d ∈ house, d.suit ≠ t) →
      (hand.any (fun c => c.suit = t) = true →
        ∀ i, i ∈ findPlayableCards hand (some s) (some t) house entered ↔
          ∃ c, hand.get? i = some c ∧ c.suit = t) ∧
      (hand.any (fun c => c.suit = t) = false →
        ∀ i, i ∈ findPlayableCards hand (some s) (some t) house entered ↔ i < hand.length)) ∧
    (∀ h', findHighestCardInSuit house (some t) none = some h' →
      h' ∈ house ∧ h'.suit = t ∧ (∀ d ∈ house, d.suit = t → d.value ≤ h'.value) ∧
      ((∃ c ∈ hand, c.suit = t ∧ h'.value < c.value) →
        ∀ i, i ∈ findPlayableCards hand (some s) (some t) house entered ↔
          ∃ c, hand.get? i = some c ∧ c.suit = t ∧ h'.value < c.value) ∧
      ((hand.any (fun c => c.suit = t) = true ∧
          ¬ ∃ c ∈ hand, c.suit = t ∧ h'.value < c.value) →
        ∀ i, i ∈ findPlayableCards hand (some s) (some t) house entered ↔
          ∃ c, hand.get? i = some c ∧ c.suit = t) ∧
      (hand.any (fun c => c.suit = t) = false →
        ∀ i, i ∈ findPlayableCards hand (some s) (some t) house entered ↔ i < hand.length)) := by
  have hlen0 : house.length ≠ 0 := by
    simpa using fun h => hhouse (List.length_eq_zero.mp h)
  have hfl : hasSuit hand (some s) = false := by
    simp only [hasSuit]
    rw [← Bool.not_eq_true]
    intro h
    rcases List.any_eq_true.mp h with ⟨c, hc, hpc⟩
    exact hvoid c hc (by simpa using hpc)
  have hred : findPlayableCards hand (some s) (some t) house entered =
      playableWhenNoLeadSuit hand house (some t) := by
    simp only [findPlayableCards, hfl]
    rw [if_neg hlen0, if_neg (by simp)]
  constructor
  · intro hnotr
    have hHT : findHighestCardInSuit house (some t) none = none := by
      refine findHighestCardInSuit_eq_none.mpr (fun d hd hpd => ?_)
      simp only [inSuitNonTrump, Bool.and_eq_true, decide_eq_true_eq] at hpd
      exact hnotr d hd hpd.1
    constructor
    · intro hht i
      rw [hred]
      simp only [playableWhenNoLeadSuit, hHT]
      rw [if_pos (by simpa [hasSuit] using hht)]
      simp only [suitIndices]
      rw [mem_indicesWhere]
      constructor
      · rintro ⟨c, hg, hpc⟩
        exact ⟨c, hg, by simpa using hpc⟩
      · rintro ⟨c, hg, hcs⟩
        exact ⟨c, hg, by simp [hcs]⟩
    · intro hht i
      rw [hred]
      simp only [playableWhenNoLeadSuit, hHT]
      rw [if_neg (by simp [hasSuit, hht])]
      simp [allIndices]
  · intro h' hHT
    rcases findHighestCardInSuit_eq_some hHT with ⟨hmem, hpred, hmax⟩
    have hs' : h'.suit = t := by
      have h2 := hpred
      simp only [inSuitNonTrump, Bool.and_eq_true, decide_eq_true_eq] at h2
      exact h2.1
    refine ⟨hmem, hs', ?_, ?_, ?_, ?_⟩
    · intro d hd hds
      exact hmax d hd (by simp [inSuitNonTrump, hds])
    · rintro ⟨c, hc, hcs, hcv⟩ i
      have hht : hasSuit hand (some t) = true := by
        simp only [hasSuit]
        exact List.any_eq_true.mpr ⟨c, hc, by simp [hcs]⟩
      rcases findHighestCardInSuit_isSome_of_mem (some t) none hc
          (by simp [inSuitNonTrump, hcs]) with ⟨m, hm⟩
      rcases findHighestCardInSuit_eq_some hm with ⟨-, hmp, hmmax⟩
      have hms : m.suit = t := by
        have h2 := hmp
        simp only [inSuitNonTrump, Bool.and_eq_true, decide_eq_true_eq] at h2
        exact h2.1
      have hgt : optGtVal (findHighestCardInSuit hand (some t) none) h'.value = true := by
        rw [hm]
        simp only [optGtVal, decide_eq_true_eq]
        have := hmmax c hc (by simp [inSuitNonTrump, hcs])
        omega
      rw [hred]
      simp only [playableWhenNoLeadSuit, hHT]
      rw [if_pos hht, if_pos hgt]
      simp only [higherThanInSuit]
      rw [mem_indicesWhere]
      constructor
      · rintro ⟨d, hg, hpd⟩
        simp only [Bool.and_eq_true, decide_eq_true_eq, gtMin] at hpd
        exact ⟨d, hg, hpd.1, by simpa using hpd.2⟩
      · rintro ⟨d, hg, hds, hdv⟩
        exact ⟨d, hg, by simp [hds, gtMin, hdv]⟩
    · rintro ⟨hht, hnh⟩ i
      have hgt : optGtVal (findHighestCardInSuit hand (some t) none) h'.value = false := by
        rw [← Bool.not_eq_true]
        intro hgt
        rcases optGtVal_eq_true hgt with ⟨m, hm, hv⟩
        rcases findHighestCardInSuit_eq_some hm with ⟨hmmem, hmp, -⟩
        have hms : m.suit = t := by
          have h2 := hmp
          simp only [inSuitNonTrump, Bool.and_eq_true, decide_eq_true_eq] at h2
          exact h2.1
        exact hnh ⟨m, hmmem, hms, hv⟩
      rw [hred]
      simp only [playableWhenNoLeadSuit, hHT]
      rw [if_pos (by simpa [hasSuit] using hht), if_neg (by simp [hgt])]
      simp only [suitIndices]
      rw [mem_indicesWhere]
      constructor
      · rintro ⟨c, hg, hpc⟩
        exact ⟨c, hg, by simpa using hpc⟩
      · rintro ⟨c, hg, hcs⟩
        exact ⟨c, hg, by simp [hcs]⟩
    · intro hht i
      rw [hred]
      simp only [playableWhenNoLeadSuit, hHT]
      rw [if_neg (by simp [hasSuit, hht])]
      simp [allIndices]

/-- Witness for C3: hearts led, spades trump, a trick already holding 9♠, a
hand holding J♠ and 8♠ but no hearts. -/
theorem trumpWhenVoid_legal_witness :
    ((∀ d ∈ [mkCard .hearts .r7, mkCard .spades .r9], d.suit ≠ Suit.spades) →
      (([mkCard .spades .jack, mkCard .spades .r8, mkCard .diamonds .king] :
          List Card).any (fun c => c.suit = Suit.spades) = true →
        ∀ i, i ∈ findPlayableCards
            [mkCard .spades .jack, mkCard .spades .r8, mkCard .diamonds .king]
            (some .hearts) (some .spades) [mkCard .hearts .r7, mkCard .spades .r9] 3 ↔
          ∃ c, ([mkCard .spades .jack, mkCard .spades .r8, mkCard .diamonds .king] :
            List Card).get? i = some c ∧ c.suit = Suit.spades) ∧
      (([mkCard .spades .jack, mkCard .spades .r8, mkCard .diamonds .king] :
          List Card).any (fun c => c.suit = Suit.spades) = false →
        ∀ i, i ∈ findPlayableCards
            [mkCard .spades .jack, mkCard .spades .r8, mkCard .diamonds .king]
            (some .hearts) (some .spades) [mkCard .hearts .r7, mkCard .spades .r9] 3 ↔
          i < ([mkCard .spades .jack, mkCard .spades .r8, mkCard .diamonds .king] :
            List Card).length)) ∧
    (∀ h', findHighestCardInSuit [mkCard .hearts .r7, mkCard .spades .r9]
        (some .spades) none = some h' →
      h' ∈ [mkCard .hearts .r7, mkCard .spades .r9] ∧ h'.suit = Suit.spades ∧
      (∀ d ∈ [mkCard .hearts .r7, mkCard .spades .r9],
        d.suit = Suit.spades → d.value ≤ h'.value) ∧
      ((∃ c ∈ [mkCard .spades .jack, mkCard .spades .r8, mkCard .diamonds .king],
          c.suit = Suit.spades ∧ h'.value < c.value) →
        ∀ i, i ∈ findPlayableCards
            [mkCard .spades .jack, mkCard .spades .r8, mkCard .diamonds .king]
            (some .hearts) (some .spades) [mkCard .hearts .r7, mkCard .spades .r9] 3 ↔
          ∃ c, ([mkCard .spades .jack, mkCard .spades .r8, mkCard .diamonds .king] :
            List Card).get? i = some c ∧ c.suit = Suit.spades ∧ h'.value < c.value) ∧
      ((([mkCard .spades .jack, mkCard .spades .r8, mkCard .diamonds .king] :
            List Card).any (fun c => c.suit = Suit.spades) = true ∧
          ¬ ∃ c ∈ [mkCard .spades .jack, mkCard .spades .r8, mkCard .diamonds .king],
            c.suit = Suit.spades ∧ h'.value < c.value) →
        ∀ i, i ∈ findPlayableCards
            [mkCard .spades .jack, mkCard .spades .r8, mkCard .diamonds .king]
            (some .hearts) (some .spades) [mkCard .hearts .r7, mkCard .spades .r9] 3 ↔
          ∃ c, ([mkCard .spades .jack, mkCard .spades .r8, mkCard .diamonds .king] :
            List Card).get? i = some c ∧ c.suit = Suit.spades) ∧
      (([mkCard .spades .jack, mkCard .spades .r8, mkCard .diamonds .king] :
          List Card).any (fun c => c.suit = Suit.spades) = false →
        ∀ i, i ∈ findPlayableCards
            [mkCard .spades .jack, mkCard .spades .r8, mkCard .diamonds .king]
            (some .hearts) (some .spades) [mkCard .hearts .r7, mkCard .spades .r9] 3 ↔
          i < ([mkCard .spades .jack, mkCard .spades .r8, mkCard .diamonds .king] :
            List Card).length)) :=
  trumpWhenVoid_legal
    [mkCard .spades .jack, mkCard .spades .r8, mkCard .diamonds .king]
    [mkCard .hearts .r7, mkCard .spades .r9] Suit.hearts Suit.spades 3
    (by decide) (by decide)

/-! ### Trick-winner resolution (claim C4) -/

theorem findHighestCardStep_or (ts : Option Suit) (a b : Card) :
    findHighestCardStep ts a b = a ∨ findHighestCardStep ts a b = b := by
  cases ts with
  | none =>
    simp only [findHighestCardStep]
    split <;> simp
  | some t =>
    simp only [findHighestCardStep]
    split
    · simp
    · split
      · split <;> simp
      · simp

theorem findHighestCardStep_trump_left {t : Suit} {a b : Card} (ha : a.suit = t) :
    (findHighestCardStep (some t) a b).suit = t ∧
      a.value ≤ (findHighestCardStep (some t) a b).value := by
  simp only [findHighestCardStep]
  split
  · rename_i h; exact absurd ha h.2
  · split
    · rename_i h
      split
      · rename_i hlt
        rcases h with ⟨hbt, -⟩ | ⟨-, hat⟩
        · exact ⟨hbt, by omega⟩
        · exact absurd ha hat
      · exact ⟨ha, le_refl _⟩
    · exact ⟨ha, le_refl _⟩

theorem findHighestCardStep_trump_right {t : Suit} {a b : Card} (hb : b.suit = t) :
    (findHighestCardStep (some t) a b).suit = t ∧
      b.value ≤ (findHighestCardStep (some t) a b).value := by
  simp only [findHighestCardStep]
  split
  · exact ⟨hb, le_refl _⟩
  · rename_i hno
    have ha : a.suit = t := by
      by_contra hat
      exact hno ⟨hb, hat⟩
    split
    · split
      · exact ⟨hb, le_refl _⟩
      · rename_i hnlt; exact ⟨ha, by omega⟩
    · rename_i h
      exact absurd (Or.inl ⟨hb, ha⟩) h

theorem findHighestCardStep_nontrump {t : Suit} {a b : Card}
    (ha : a.suit ≠ t) (hb : b.suit ≠ t) :
    findHighestCardStep (some t) a b = valueMaxStep a b := by
  simp only [findHighestCardStep, valueMaxStep]
  rw [if_neg (by tauto), if_pos (Or.inr ⟨hb, ha⟩)]

theorem foldl_fhcs_mem (ts : Option Suit) :
    ∀ (l : List Card) (a : Card),
      l.foldl (findHighestCardStep ts) a = a ∨ l.foldl (findHighestCardStep ts) a ∈ l := by
  intro l
  induction l with
  | nil => intro a; left; rfl
  | cons c rest ih =>
    intro a
    rw [List.foldl_cons]
    rcases ih (findHighestCardStep ts a c) with h | h
    · rw [h]
      rcases findHighestCardStep_or ts a c with h' | h'
      · left; exact h'
      · right; rw [h']; exact List.mem_cons_self c rest
    · right; exact List.mem_cons_of_mem c h

theorem foldl_fhcs_trump (t : Suit) :
    ∀ (l : List Card) (a : Card),
      ((a.suit = t ∨ ∃ d ∈ l, d.suit = t) →
        (l.foldl (findHighestCardStep (some t)) a).suit = t) ∧
      (∀ d ∈ l, d.suit = t → d.value ≤ (l.foldl (findHighestCardStep (some t)) a).value) ∧
      (a.suit = t → a.value ≤ (l.foldl (findHighestCardStep (some t)) a).value) := by
  intro l
  induction l with
  | nil =>
    intro a
    refine ⟨fun h => ?_, fun d hd => absurd hd (List.not_mem_nil d), fun _ => le_refl _⟩
    rcases h with h | ⟨d, hd, -⟩
    · exact h
    · exact absurd hd (List.not_mem_nil d)
  | cons b rest ih =>
    intro a
    rw [List.foldl_cons]
    rcases ih (findHighestCardStep (some t) a b) with ⟨ih1, ih2, ih3⟩
    refine ⟨?_, ?_, ?_⟩
    · intro h
      rcases h with ha | ⟨d, hd, hdt⟩
      · exact ih1 (Or.inl (findHighestCardStep_trump_left ha).1)
      · rcases List.mem_cons.mp hd with rfl | hd'
        · exact ih1 (Or.inl (findHighestCardStep_trump_right hdt).1)
        · exact ih1 (Or.inr ⟨d, hd', hdt⟩)
    · intro d hd hdt
      rcases List.mem_cons.mp hd with rfl | hd'
      · have hs := @findHighestCardStep_trump_right t a d hdt
        exact le_trans hs.2 (ih3 hs.1)
      · exact ih2 d hd' hdt
    · intro ha
      have hs := @findHighestCardStep_trump_left t a b ha
      exact le_trans hs.2 (ih3 hs.1)

theorem foldl_fhcs_nontrump (t : Suit) :
    ∀ (l : List Card) (a : Card), a.suit ≠ t → (∀ d ∈ l, d.suit ≠ t) →
      l.foldl (findHighestCardStep (some t)) a = l.foldl valueMaxStep a := by
  intro l
  induction l with
  | nil => intro a _ _; rfl
  | cons b rest ih =>
    intro a ha hall
    have hb : b.suit ≠ t := hall b (List.mem_cons_self b rest)
    rw [List.foldl_cons, List.foldl_cons, findHighestCardStep_nontrump ha hb]
    refine ih (valueMaxStep a b) ?_ (fun d hd => hall d (List.mem_cons_of_mem b hd))
    rcases valueMaxStep_or a b with h | h <;> rw [h] <;> assumption

theorem findHighestCard_eq_some {cards : List Card} {ts : Option Suit} {hc : Card}
    (h : findHighestCard cards ts = some hc) :
    hc ∈ cards ∧
    (∀ t, ts = some t → (∃ d ∈ cards, d.suit = t) →
      hc.suit = t ∧ ∀ d ∈ cards, d.suit = t → d.value ≤ hc.value) ∧
    (∀ t, ts = some t → (∀ d ∈ cards, d.suit ≠ t) → ∀ d ∈ cards, d.value ≤ hc.value) ∧
    (ts = none → ∀ d ∈ cards, d.value ≤ hc.value) := by
  rcases cards with - | ⟨c0, rest⟩
  · simp [findHighestCard] at h
  · simp only [findHighestCard, Option.some.injEq] at h
    subst h
    refine ⟨?_, ?_, ?_, ?_⟩
    · rcases foldl_fhcs_mem ts (c0 :: rest) c0 with h | h
      · rw [h]; exact List.mem_cons_self c0 rest
      · exact h
    · rintro t rfl ⟨d, hd, hdt⟩
      rcases foldl_fhcs_trump t (c0 :: rest) c0 with ⟨h1, h2, -⟩
      exact ⟨h1 (Or.inr ⟨d, hd, hdt⟩), fun e he het => h2 e he het⟩
    · rintro t rfl hall
      rw [foldl_fhcs_nontrump t (c0 :: rest) c0 (hall c0 (List.mem_cons_self c0 rest)) hall]
      exact fun d hd => foldl_valueMaxStep_ge (c0 :: rest) c0 d hd
    · rintro rfl
      have he : findHighestCardStep none = valueMaxStep := rfl
      rw [he]
      exact fun d hd => foldl_valueMaxStep_ge (c0 :: rest) c0 d hd

theorem updateFirstPlayer_spec (ps : List Player) (pid : Nat) (f : Player → Player)
    (p : Player) (hfind : ps.find? (fun q => q.id = pid) = some p) :
    ∃ j, ps.get? j = some p ∧ ps.findIdx (fun q => q.id = pid) = j ∧
      (updateFirstPlayer ps pid f).get? j = some (f p) ∧
      (∀ k, k ≠ j → (updateFirstPlayer ps pid f).get? k = ps.get? k) ∧
      (updateFirstPlayer ps pid f).length = ps.length := by
  induction ps generalizing p with
  | nil => simp [List.find?] at hfind
  | cons q rest ih =>
    by_cases hq : q.id = pid
    · have hpq : p = q := by
        rw [List.find?_cons_of_pos _ (by simp [hq])] at hfind
        exact (Option.some.inj hfind).symm
      subst hpq
      refine ⟨0, rfl, ?_, ?_, ?_, ?_⟩
      · rw [List.findIdx_cons]; simp [hq]
      · simp [updateFirstPlayer, hq]
      · intro k hk
        rcases k with - | k
        · exact absurd rfl hk
        · simp [updateFirstPlayer, hq]
      · simp [updateFirstPlayer, hq]
    · rw [List.find?_cons_of_neg _ (by simp [hq])] at hfind
      rcases ih p hfind with ⟨j, hg, hidx, hug, hother, hlen⟩
      refine ⟨j + 1, by simpa using hg, ?_, ?_, ?_, ?_⟩
      · rw [List.findIdx_cons]; simp [hq, hidx]
      · simp only [updateFirstPlayer, if_neg hq]
        simpa using hug
      · intro k hk
        rcases k with - | k
        · simp [updateFirstPlayer, hq]
        · simp only [updateFirstPlayer, if_neg hq, List.get?_cons_succ]
          exact hother k (by omega)
      · simp [updateFirstPlayer, hq, hlen]

/-- C4: for a non-empty completed trick whose cards have pairwise distinct
(suit, rank) and whose entries name existing seats, `findHighestCard` selects
a trump card whenever a trump was played, otherwise a card of maximal value
(within a class the higher value wins), and `completeHouse` adds exactly one
house to the seat that played that card and makes that seat the current
player. -/
theorem trickWinner_resolution (g : GameState)
    (hne : g.currentHouse ≠ [])
    (hdist : ∀ c ∈ g.currentHouse.map (·.card), ∀ d ∈ g.currentHouse.map (·.card),
      c.suit = d.suit → c.rank = d.rank → c = d)
    (hplayers : ∀ e ∈ g.currentHouse, ∃ p ∈ g.players, p.id = e.playerId) :
    ∃ hc, findHighestCard (g.currentHouse.map (·.card)) (g.trumpCard.map (·.suit)) = some hc ∧
      hc ∈ g.currentHouse.map (·.card) ∧
      (∀ t, g.trumpCard.map (·.suit) = some t →
        (∃ d ∈ g.currentHouse.map (·.card), d.suit = t) →
        hc.suit = t ∧ ∀ d ∈ g.currentHouse.map (·.card), d.suit = t → d.value ≤ hc.value) ∧
      (∀ t, g.trumpCard.map (·.suit) = some t →
        (∀ d ∈ g.currentHouse.map (·.card), d.suit ≠ t) →
        ∀ d ∈ g.currentHouse.map (·.card), d.value ≤ hc.value) ∧
      (g.trumpCard = none → ∀ d ∈ g.currentHouse.map (·.card), d.value ≤ hc.value) ∧
      ∃ e ∈ g.currentHouse, e.card = hc ∧
        ∃ j p, g.players.get? j = some p ∧ p.id = e.playerId ∧
          (gsmCompleteHouse g).currentPlayerIndex = j ∧
          ((gsmCompleteHouse g).players.get? j).map (·.housesBuilt) =
            some (p.housesBuilt + 1) ∧
          (∀ k, k ≠ j → (gsmCompleteHouse g).players.get? k = g.players.get? k) := by
  have hcards : g.currentHouse.map (·.card) ≠ [] := by
    intro h
    exact hne (List.map_eq_nil_iff.mp h)
  rcases hfhc : findHighestCard (g.currentHouse.map (·.card)) (g.trumpCard.map (·.suit))
    with - | hc
  · rcases hcne : g.currentHouse.map (·.card) with - | ⟨c0, rest⟩
    · exact absurd hcne hcards
    · rw [hcne] at hfhc; simp [findHighestCard] at hfhc
  rcases findHighestCard_eq_some hfhc with ⟨hmem, htr, hnotr, hnone⟩
  refine ⟨hc, hfhc, hmem, htr, hnotr, fun h => hnone (by rw [h]; rfl), ?_⟩
  -- the winning entry of the house
  have hex : ∃ e ∈ g.currentHouse,
      (decide (e.card.suit = hc.suit ∧ e.card.rank = hc.rank)) = true := by
    rcases List.mem_map.mp hmem with ⟨e, he, hec⟩
    exact ⟨e, he, by simp [hec]⟩
  have hfsome : (g.currentHouse.find? (fun e =>
      e.card.suit = hc.suit ∧ e.card.rank = hc.rank)).isSome := by
    rw [List.find?_isSome]
    exact hex
  rcases Option.isSome_iff_exists.mp hfsome with ⟨e, hfe⟩
  have hemem : e ∈ g.currentHouse := List.mem_of_find?_eq_some hfe
  have hepred := List.find?_some hfe
  have hecard : e.card = hc := by
    simp only [decide_eq_true_eq] at hepred
    exact hdist e.card (List.mem_map.mpr ⟨e, hemem, rfl⟩) hc hmem hepred.1 hepred.2
  -- the winning seat
  have hwsome : (findPlayer g e.playerId).isSome := by
    rw [findPlayer, List.find?_isSome]
    rcases hplayers e hemem with ⟨p, hp, hpid⟩
    exact ⟨p, hp, by simp [hpid]⟩
  rcases Option.isSome_iff_exists.mp hwsome with ⟨w, hfw⟩
  have hwid : w.id = e.playerId := by
    have := List.find?_some hfw
    simpa using this
  rcases updateFirstPlayer_spec g.players w.id
      (fun p => { p with housesBuilt := p.housesBuilt + 1 }) w
      (by rw [hwid]; exact hfw) with ⟨j, hgj, hidx, hupj, hother, -⟩
  have hcomp1 : (gsmCompleteHouse g).players = updateFirstPlayer g.players w.id
      (fun p => { p with housesBuilt := p.housesBuilt + 1 }) := by
    simp only [gsmCompleteHouse, hfhc, hfe, hfw]
  have hcomp2 : (gsmCompleteHouse g).currentPlayerIndex =
      g.players.findIdx (fun p => p.id = w.id) := by
    simp only [gsmCompleteHouse, hfhc, hfe, hfw]
  refine ⟨e, hemem, hecard, j, w, hgj, hwid, ?_, ?_, ?_⟩
  · rw [hcomp2]; exact hidx
  · rw [hcomp1, hupj]; rfl
  · intro k hk
    rw [hcomp1]
    exact hother k hk

/-- A concrete three-seat trick used as the C4 witness: hearts led, spades
trump, 9♠ overtrumped nothing higher, seat 7 wins with J♠. -/
def gC4 : GameState :=
  { players := [ { id := 5, housesBuilt := 0, enteredRound := some true },
                 { id := 7, housesBuilt := 2, enteredRound := some true },
                 { id := 9, enteredRound := some true } ],
    trumpCard := some (mkCard .spades .queen),
    leadSuit := some .hearts,
    gamePhase := .playing,
    currentHouse := [ ⟨mkCard .hearts .ace, 5⟩, ⟨mkCard .spades .jack, 7⟩,
                      ⟨mkCard .spades .r8, 9⟩ ] }

/-- Witness for C4 on `gC4`. -/
theorem trickWinner_resolution_witness :
    ∃ hc, findHighestCard (gC4.currentHouse.map (·.card)) (gC4.trumpCard.map (·.suit)) =
        some hc ∧
      hc ∈ gC4.currentHouse.map (·.card) ∧
      (∀ t, gC4.trumpCard.map (·.suit) = some t →
        (∃ d ∈ gC4.currentHouse.map (·.card), d.suit = t) →
        hc.suit = t ∧ ∀ d ∈ gC4.currentHouse.map (·.card), d.suit = t → d.value ≤ hc.value) ∧
      (∀ t, gC4.trumpCard.map (·.suit) = some t →
        (∀ d ∈ gC4.currentHouse.map (·.card), d.suit ≠ t) →
        ∀ d ∈ gC4.currentHouse.map (·.card), d.value ≤ hc.value) ∧
      (gC4.trumpCard = none → ∀ d ∈ gC4.currentHouse.map (·.card), d.value ≤ hc.value) ∧
      ∃ e ∈ gC4.currentHouse, e.card = hc ∧
        ∃ j p, gC4.players.get? j = some p ∧ p.id = e.playerId ∧
          (gsmCompleteHouse gC4).currentPlayerIndex = j ∧
          ((gsmCompleteHouse gC4).players.get? j).map (·.housesBuilt) =
            some (p.housesBuilt + 1) ∧
          (∀ k, k ≠ j → (gsmCompleteHouse gC4).players.get? k = gC4.players.get? k) :=
  trickWinner_resolution gC4 (by decide) (by decide) (by decide)

/-! ### Scoring (claim C6) -/

theorem modifyAt_get? (f : Player → Player) :
    ∀ (l : List Player) (n i : Nat),
      (modifyAt l n f).get? i = if i = n then (l.get? n).map f else l.get? i := by
  intro l
  induction l with
  | nil => intro n i; simp [modifyAt]
  | cons p ps ih =>
    intro n i
    cases n with
    | zero =>
      cases i with
      | zero => simp [modifyAt]
      | succ k => simp [modifyAt]
    | succ n =>
      cases i with
      | zero => simp [modifyAt]
      | succ k =>
        simp only [modifyAt, List.get?_cons_succ]
        rw [ih n k]
        by_cases hk : k = n
        · simp [hk]
        · simp [hk, fun h => hk (Nat.succ_injective h)]

theorem reset_preserves_score (h : GameState) (i : Nat) :
    ((gsmResetGameStateForNextRound h).players.get? i).map (·.score) =
      (h.players.get? i).map (·.score) := by
  simp only [gsmResetGameStateForNextRound, List.length_map]
  rw [modifyAt_get?]
  split
  · rename_i hi
    rw [hi, List.get?_map]
    cases hq : h.players.get? ((h.dealerIndex + 1) % h.players.length) <;> simp [hq]
  · rw [List.get?_map]
    cases hq : h.players.get? i <;> simp [hq]

/-- C6: after `endGame`, a seat that did not enter keeps its score; an entered
seat with 0 houses gains exactly 5; an entered seat with `k > 0` houses loses
exactly `k`. -/
theorem scoring_determinism (g : GameState) (i : Nat) (p : Player)
    (hp : g.players.get? i = some p) :
    ((gsmEndGame g).players.get? i).map (·.score) =
      some (calculateScore p.score p.housesBuilt (decide (p.enteredRound = some true))) ∧
    (p.enteredRound ≠ some true →
      ((gsmEndGame g).players.get? i).map (·.score) = some p.score) ∧
    (p.enteredRound = some true → p.housesBuilt = 0 →
      ((gsmEndGame g).players.get? i).map (·.score) = some (p.score + 5)) ∧
    (p.enteredRound = some true → 0 < p.housesBuilt →
      ((gsmEndGame g).players.get? i).map (·.score) =
        some (p.score - (p.housesBuilt : Int))) := by
  have h1 : ((gsmEndGame g).players.get? i).map (·.score) =
      some (calculateScore p.score p.housesBuilt (decide (p.enteredRound = some true))) := by
    simp only [gsmEndGame]
    split
    · rw [List.get?_map, hp]
      rfl
    · rw [reset_preserves_score]
      rw [List.get?_map, hp]
      rfl
  refine ⟨h1, ?_, ?_, ?_⟩
  · intro hne
    rw [h1]
    simp [calculateScore, hne]
  · intro hent h0
    rw [h1]
    simp [calculateScore, hent, h0]
  · intro hent hk
    rw [h1]
    have : p.housesBuilt ≠ 0 := by omega
    simp [calculateScore, hent, this]

/-- A concrete end-of-round state for the C6 witness: seat 0 declined, seat 1
entered with no houses, seat 2 entered with two houses. -/
def gC6 : GameState :=
  { players := [ { id := 0, score := 12, enteredRound := some false },
                 { id := 1, score := 9, housesBuilt := 0, enteredRound := some true },
                 { id := 2, score := 15, housesBuilt := 2, enteredRound := some true } ],
    gamePhase := .playing }

/-- Witness for C6 on seat 2 of `gC6`. -/
theorem scoring_determinism_witness :
    ((gsmEndGame gC6).players.get? 2).map (·.score) = some (calculateScore 15 2 (decide
      ((some true : Option Bool) = some true))) ∧
    ((some true : Option Bool) ≠ some true →
      ((gsmEndGame gC6).players.get? 2).map (·.score) = some 15) ∧
    ((some true : Option Bool) = some true → 2 = 0 →
      ((gsmEndGame gC6).players.get? 2).map (·.score) = some (15 + 5)) ∧
    ((some true : Option Bool) = some true → 0 < 2 →
      ((gsmEndGame gC6).players.get? 2).map (·.score) = some (15 - (2 : Int))) :=
  scoring_determinism gC6 2
    { id := 2, score := 15, housesBuilt := 2, enteredRound := some true } (by decide)

/-! ### Card conservation under the exchange operations (claim C5) -/

theorem filterByIndexNotIn_erase (a : Nat) :
    ∀ (l : List Card) (idxs : List Nat) (s : Nat), a < s →
      filterByIndexNotIn l (idxs.erase a) s = filterByIndexNotIn l idxs s := by
  intro l
  induction l with
  | nil => intro idxs s _; rfl
  | cons c rest ih =>
    intro idxs s has
    have hmem : s ∈ idxs.erase a ↔ s ∈ idxs := List.mem_erase_of_ne (by omega)
    simp only [filterByIndexNotIn]
    by_cases hs : s ∈ idxs
    · rw [if_pos hs, if_pos (hmem.mpr hs)]
      exact ih idxs (s + 1) (by omega)
    · rw [if_neg hs, if_neg (fun h => hs (hmem.mp h))]
      rw [ih idxs (s + 1) (by omega)]

theorem filterByIndexNotIn_conserves :
    ∀ (l : List Card) (idxs : List Nat) (s : Nat), idxs.Nodup →
      (∀ i ∈ idxs, s ≤ i ∧ i < s + l.length) →
      (↑(filterByIndexNotIn l idxs s) +
        ↑(idxs.filterMap (fun i => l.get? (i - s))) : Multiset Card) = ↑l := by
  intro l
  induction l with
  | nil =>
    intro idxs s _ hb
    have hidxs : idxs = [] := by
      cases idxs with
      | nil => rfl
      | cons i is =>
        have := hb i (List.mem_cons_self i is)
        simp only [List.length_nil] at this
        omega
    subst hidxs
    rfl
  | cons c rest ih =>
    intro idxs s hnd hb
    by_cases hs : s ∈ idxs
    · rw [filterByIndexNotIn, if_pos hs,
        ← filterByIndexNotIn_erase s rest idxs (s + 1) (by omega)]
      have hperm : idxs.Perm (s :: idxs.erase s) := List.perm_cons_erase hs
      have hcoe : (↑(idxs.filterMap (fun i => (c :: rest).get? (i - s))) : Multiset Card) =
          ↑((s :: idxs.erase s).filterMap (fun i => (c :: rest).get? (i - s))) :=
        Multiset.coe_eq_coe.mpr (hperm.filterMap _)
      have hhead : (s :: idxs.erase s).filterMap (fun i => (c :: rest).get? (i - s)) =
          c :: (idxs.erase s).filterMap (fun i => (c :: rest).get? (i - s)) := by
        rw [List.filterMap_cons]
        simp
      have hrw : (idxs.erase s).filterMap (fun i => (c :: rest).get? (i - s)) =
          (idxs.erase s).filterMap (fun i => rest.get? (i - (s + 1))) := by
        apply List.filterMap_congr
        intro i hi
        have hine : i ≠ s := ((List.Nodup.mem_erase_iff hnd).mp hi).1
        have hge : s ≤ i := (hb i (List.mem_of_mem_erase hi)).1
        have heq : i - s = (i - (s + 1)) + 1 := by omega
        rw [heq]
        rfl
      rw [hcoe, hhead, hrw]
      have hih := ih (idxs.erase s) (s + 1) (List.Nodup.erase s hnd) (fun i hi => by
        have hine : i ≠ s := ((List.Nodup.mem_erase_iff hnd).mp hi).1
        have := hb i (List.mem_of_mem_erase hi)
        simp only [List.length_cons] at this
        omega)
      calc (↑(filterByIndexNotIn rest (idxs.erase s) (s + 1)) +
              ↑(c :: (idxs.erase s).filterMap (fun i => rest.get? (i - (s + 1)))) :
              Multiset Card)
          = c ::ₘ (↑(filterByIndexNotIn rest (idxs.erase s) (s + 1)) +
              ↑((idxs.erase s).filterMap (fun i => rest.get? (i - (s + 1))))) := by
            rw [← Multiset.cons_coe, Multiset.add_cons]
        _ = c ::ₘ (↑rest : Multiset Card) := by rw [hih]
        _ = ↑(c :: rest) := Multiset.cons_coe c rest
    · rw [filterByIndexNotIn, if_neg hs]
      have hrw : idxs.filterMap (fun i => (c :: rest).get? (i - s)) =
          idxs.filterMap (fun i => rest.get? (i - (s + 1))) := by
        apply List.filterMap_congr
        intro i hi
        have hine : i ≠ s := fun h => hs (h ▸ hi)
        have hge : s ≤ i := (hb i hi).1
        have heq : i - s = (i - (s + 1)) + 1 := by omega
        rw [heq]
        rfl
      rw [hrw]
      have hih := ih idxs (s + 1) hnd (fun i hi => by
        have hine : i ≠ s := fun h => hs (h ▸ hi)
        have := hb i hi
        simp only [List.length_cons] at this
        omega)
      calc (↑(c :: filterByIndexNotIn rest idxs (s + 1)) +
              ↑(idxs.filterMap (fun i => rest.get? (i - (s + 1)))) : Multiset Card)
          = c ::ₘ (↑(filterByIndexNotIn rest idxs (s + 1)) +
              ↑(idxs.filterMap (fun i => rest.get? (i - (s + 1))))) := by
            rw [← Multiset.cons_coe, Multiset.cons_add]
        _ = c ::ₘ (↑rest : Multiset Card) := by rw [hih]
        _ = ↑(c :: rest) := Multiset.cons_coe c rest

theorem filterMap_get?_length :
    ∀ (idxs : List Nat) (l : List Card), (∀ i ∈ idxs, i < l.length) →
      (idxs.filterMap (fun i => l.get? i)).length = idxs.length := by
  intro idxs
  induction idxs with
  | nil => intro l _; rfl
  | cons i is ih =>
    intro l hb
    have hi : i < l.length := hb i (List.mem_cons_self i is)
    rw [List.filterMap_cons, List.get?_eq_get hi]
    simp only [List.length_cons]
    rw [ih l (fun j hj => hb j (List.mem_cons_of_mem i hj))]

theorem filterByIndexNotIn_length (l : List Card) (idxs : List Nat) (hnd : idxs.Nodup)
    (hb : ∀ i ∈ idxs, i < l.length) :
    (filterByIndexNotIn l idxs 0).length + idxs.length = l.length := by
  have h := filterByIndexNotIn_conserves l idxs 0 hnd
    (fun i hi => ⟨Nat.zero_le i, by simpa using hb i hi⟩)
  have hcard := congrArg Multiset.card h
  simp only [Multiset.card_add, Multiset.coe_card] at hcard
  have hfm : idxs.filterMap (fun i => l.get? (i - 0)) =
      idxs.filterMap (fun i => l.get? i) := by
    apply List.filterMap_congr
    intro i _
    rw [Nat.sub_zero]
  rw [hfm, filterMap_get?_length idxs l hb] at hcard
  exact hcard

theorem pmSetNextPlayerFirstTurn_players (h : GameState) :
    (pmSetNextPlayerFirstTurn h).players = h.players := by
  simp only [pmSetNextPlayerFirstTurn]
  split <;> rfl

theorem pmSetNextPlayerFirstTurn_trumpCard (h : GameState) :
    (pmSetNextPlayerFirstTurn h).trumpCard = h.trumpCard := by
  simp only [pmSetNextPlayerFirstTurn]
  split <;> rfl

theorem pmSetNextPlayerFirstTurn_tree (h : GameState) :
    (pmSetNextPlayerFirstTurn h).tree = h.tree := by
  simp only [pmSetNextPlayerFirstTurn]
  split <;> rfl

theorem pmSetNextPlayerFirstTurn_gamePhase (h : GameState) :
    (pmSetNextPlayerFirstTurn h).gamePhase = h.gamePhase := by
  simp only [pmSetNextPlayerFirstTurn]
  split <;> rfl

/-- A five-card hand used by the C5 states. -/
def handC5 : List Card :=
  [mkCard .clubs .king, mkCard .spades .r9, mkCard .diamonds .r8,
   mkCard .clubs .r7, mkCard .diamonds .jack]

/-- An exchange-phase state: seat 0 (entered, hand `handC5`), seat 1 entered,
two cards in the tree, Q♠ face up. -/
def gC5 : GameState :=
  { players := [ { id := 0, hand := handC5, enteredRound := some true },
                 { id := 1, hand := [mkCard .hearts .r7], enteredRound := some true } ],
    tree := [mkCard .hearts .ace, mkCard .hearts .king],
    gamePhase := .exchanging,
    trumpCard := some (mkCard .spades .queen) }

/-- A trump-exchange state: the dealer (seat 0, entered) holds `handC5`,
Q♠ face up. -/
def gC5t : GameState :=
  { players := [ { id := 0, hand := handC5, enteredRound := some true, isDealer := true } ],
    gamePhase := .trump_exchanging,
    trumpCard := some (mkCard .spades .queen) }

/-- C5 counterexample: a legal `exchangeCards` call removes the exchanged
card (K♣) from play entirely, and a legal `exchangeTrump` call duplicates the
face-up trump card (Q♠) while losing the replaced hand card: the multiset of
cards in play is not preserved. -/
theorem conservation_counterexample :
    (pmExchangeCards gC5 0 [0]).2 = true ∧
    (cardsInPlay gC5).count (mkCard .clubs .king) = 1 ∧
    (cardsInPlay (pmExchangeCards gC5 0 [0]).1).count (mkCard .clubs .king) = 0 ∧
    (pmExchangeTrump gC5t 0 0).2 = true ∧
    (cardsInPlay gC5t).count (mkCard .spades .queen) = 1 ∧
    (cardsInPlay (pmExchangeTrump gC5t 0 0).1).count (mkCard .spades .queen) = 2 := by
  decide

/-- The state produced by a successful non-skip `exchangeTrump`: the chosen
hand card is overwritten with the face-up trump card and the phase moves to
playing (before the first-turn selection). -/
def trumpSwapped (g : GameState) (pid : Nat) (kk : Int) (tc : Card) : GameState :=
  let ps := updateFirstPlayer g.players pid
    (fun q => { q with hand := q.hand.set kk.toNat tc, hasExchanged := true })
  { g with players := ps, gamePhase := .playing }

/-- C5 (amended): `swapCards` conserves cards only up to the exchanged ones:
hand' + tree' + exchanged = hand + tree as multisets, so the exchanged cards
leave play; `exchangeTrump` copies the face-up trump into the hand (the hand
card at the index is overwritten and `trumpCard` stays in place). -/
theorem exchange_conservation :
    (∀ (hand tree : List Card) (idxs : List Nat),
      hand.length = 5 → idxs.Nodup → (∀ i ∈ idxs, i < hand.length) →
      idxs.length ≤ tree.length →
      ((swapCards hand tree idxs).1 : Multiset Card) + ↑(swapCards hand tree idxs).2 +
        ↑(idxs.filterMap (fun i => hand.get? i)) = ↑hand + ↑tree) ∧
    (∀ (g : GameState) (pid : Nat) (p : Player) (tc : Card) (k : Nat),
      findPlayer g pid = some p → g.gamePhase = .trump_exchanging →
      p.enteredRound = some true → p.isDealer = true → g.trumpCard = some tc →
      k < p.hand.length →
      (pmExchangeTrump g pid (k : Int)).2 = true ∧
      (pmExchangeTrump g pid (k : Int)).1.trumpCard = some tc ∧
      ∃ j, g.players.get? j = some p ∧
        ((pmExchangeTrump g pid (k : Int)).1.players.get? j).map (·.hand) =
          some (p.hand.set k tc)) := by
  constructor
  · intro hand tree idxs hlen hnd hb hk
    have hexlen : (idxs.filterMap (fun i => hand.get? i)).length = idxs.length :=
      filterMap_get?_length idxs hand hb
    have hfblen : (filterByIndexNotIn hand idxs 0).length + idxs.length = hand.length :=
      filterByIndexNotIn_length hand idxs hnd hb
    have h1len : (filterByIndexNotIn hand idxs 0 ++
        tree.take (idxs.filterMap (fun i => hand.get? i)).length).length = 5 := by
      rw [List.length_append, List.length_take, hexlen]
      omega
    have hcons := filterByIndexNotIn_conserves hand idxs 0 hnd
      (fun i hi => ⟨Nat.zero_le i, by simpa using hb i hi⟩)
    have hfm : idxs.filterMap (fun i => hand.get? (i - 0)) =
        idxs.filterMap (fun i => hand.get? i) := by
      apply List.filterMap_congr
      intro i _
      rw [Nat.sub_zero]
    rw [hfm] at hcons
    simp only [swapCards, h1len, if_pos rfl]
    calc (↑(filterByIndexNotIn hand idxs 0 ++
            tree.take (idxs.filterMap (fun i => hand.get? i)).length) +
          ↑(tree.drop (idxs.filterMap (fun i => hand.get? i)).length) +
          ↑(idxs.filterMap (fun i => hand.get? i)) : Multiset Card)
        = (↑(filterByIndexNotIn hand idxs 0) +
            ↑(idxs.filterMap (fun i => hand.get? i))) +
          (↑(tree.take (idxs.filterMap (fun i => hand.get? i)).length) +
            ↑(tree.drop (idxs.filterMap (fun i => hand.get? i)).length)) := by
          rw [← Multiset.coe_add]
          abel
      _ = ↑hand + ↑tree := by
          rw [hcons, Multiset.coe_add, List.take_append_drop]
  · intro g pid p tc k hfp hph hent hdl htc hk
    have hm1 : ¬ ((k : Int) = -1) := by omega
    have hm2 : ¬ ((k : Int) < 0 ∨ (p.hand.length : Int) ≤ (k : Int)) := by
      push_neg
      constructor <;> omega
    rcases updateFirstPlayer_spec g.players pid
        (fun q => { q with hand := q.hand.set (Int.toNat (k : Int)) tc,
                           hasExchanged := true }) p hfp
      with ⟨j, hgj, -, hupj, -, -⟩
    have hred : pmExchangeTrump g pid (k : Int) =
        (pmSetNextPlayerFirstTurn (trumpSwapped g pid (k : Int) tc), true) := by
      unfold pmExchangeTrump
      rw [if_neg (by simp [hph])]
      simp only [hfp, htc]
      rw [if_neg (by simp [hent, hdl]), if_neg hm1, if_neg hm2]
      simp [trumpSwapped, htc]
    refine ⟨by rw [hred], ?_, ⟨j, hgj, ?_⟩⟩
    · rw [hred]
      simp only [pmSetNextPlayerFirstTurn_trumpCard, trumpSwapped]
      exact htc
    · rw [hred]
      simp only [pmSetNextPlayerFirstTurn_players, trumpSwapped, hupj]
      simp

/-- The dealer seat of `gC5t`. -/
def pC5t : Player :=
  { id := 0, hand := handC5, enteredRound := some true, isDealer := true }

/-- Witness for C5 (amended): a concrete one-card swap and a concrete trump
exchange. -/
theorem exchange_conservation_witness :
    (((swapCards handC5 [mkCard .hearts .ace, mkCard .hearts .king] [0]).1 : Multiset Card) +
        ↑(swapCards handC5 [mkCard .hearts .ace, mkCard .hearts .king] [0]).2 +
        ↑(([0] : List Nat).filterMap (fun i => handC5.get? i)) =
      ↑handC5 + ↑[mkCard .hearts .ace, mkCard .hearts .king]) ∧
    ((pmExchangeTrump gC5t 0 ((0 : Nat) : Int)).2 = true ∧
      (pmExchangeTrump gC5t 0 ((0 : Nat) : Int)).1.trumpCard =
        some (mkCard .spades .queen) ∧
      ∃ j, gC5t.players.get? j = some pC5t ∧
        ((pmExchangeTrump gC5t 0 ((0 : Nat) : Int)).1.players.get? j).map (·.hand) =
          some (pC5t.hand.set 0 (mkCard .spades .queen))) :=
  ⟨exchange_conservation.1 handC5 [mkCard .hearts .ace, mkCard .hearts .king] [0]
      (by decide) (by decide) (by decide) (by decide),
   exchange_conservation.2 gC5t 0 pC5t (mkCard .spades .queen) 0
      (by decide) (by decide) (by decide) (by decide) (by decide) (by decide)⟩

/-! ### Playing a card (claims C8 and C9) -/

theorem validateAndFixHand_playing (hand tree : List Card) (h5 : hand.length ≤ 5) :
    validateAndFixHand .playing hand tree =
      (hand ++ tree.take (min (5 - hand.length) tree.length),
       tree.drop (min (5 - hand.length) tree.length)) := by
  unfold validateAndFixHand
  rw [if_pos rfl, if_neg (by omega)]
  by_cases hlt : hand.length < 5 ∧ tree ≠ []
  · rw [if_pos hlt]
  · rw [if_neg hlt]
    push_neg at hlt
    rcases Nat.lt_or_ge hand.length 5 with hl | hl
    · have htree : tree = [] := hlt hl
      subst htree
      simp
    · have h5' : hand.length = 5 := by omega
      rw [h5']
      simp

theorem updateFirstPlayer_comp (ps : List Player) (pid : Nat) (f1 f2 : Player → Player)
    (hid : ∀ q, (f1 q).id = q.id) :
    updateFirstPlayer (updateFirstPlayer ps pid f1) pid f2 =
      updateFirstPlayer ps pid (fun q => f2 (f1 q)) := by
  induction ps with
  | nil => rfl
  | cons q rest ih =>
    by_cases hq : q.id = pid
    · simp [updateFirstPlayer, hq, hid q]
    · simp [updateFirstPlayer, hq, ih]

/-- The effect of a successful `PlayerManager.playCard`: the hand is first
refilled from the tree toward 5 cards (during the playing phase), then the
card at `idx` is removed. -/
theorem pmPlayCard_success (g : GameState) (pid idx : Nat) (p : Player)
    (hph : g.gamePhase = .playing) (hfp : findPlayer g pid = some p)
    (hent : p.enteredRound = some true)
    (hcur : (g.players.get? g.currentPlayerIndex).map (·.id) = some pid)
    (h5 : p.hand.length ≤ 5) (hidx : idx < p.hand.length) :
    (pmPlayCard g pid idx).2 = true ∧
    (pmPlayCard g pid idx).1.tree =
      g.tree.drop (min (5 - p.hand.length) g.tree.length) ∧
    ∃ j, g.players.get? j = some p ∧
      ((pmPlayCard g pid idx).1.players.get? j).map (·.hand) =
        some ((p.hand ++ g.tree.take (min (5 - p.hand.length) g.tree.length)).eraseIdx idx) := by
  have hfix := validateAndFixHand_playing p.hand g.tree h5
  have hget : (p.hand ++ g.tree.take (min (5 - p.hand.length) g.tree.length)).get? idx =
      some (p.hand.get ⟨idx, hidx⟩) := by
    rw [List.get?_append hidx, List.get?_eq_get hidx]
  have hcomp := updateFirstPlayer_comp g.players pid
    (fun q => { q with hand :=
      p.hand ++ g.tree.take (min (5 - p.hand.length) g.tree.length) })
    (fun q => { q with hand := q.hand.eraseIdx idx })
    (fun q => rfl)
  rcases updateFirstPlayer_spec g.players pid
      (fun q => { q with hand :=
        (p.hand ++ g.tree.take (min (5 - p.hand.length) g.tree.length)).eraseIdx idx })
      p hfp with ⟨j, hgj, -, hupj, -, -⟩
  have hred : pmPlayCard g pid idx =
      (let g2 : GameState :=
        { g with
          tree := g.tree.drop (min (5 - p.hand.length) g.tree.length),
          players := updateFirstPlayer g.players pid
            (fun q => { q with hand :=
              (p.hand ++ g.tree.take (min (5 - p.hand.length) g.tree.length)).eraseIdx idx }),
          currentHouse := g.currentHouse ++ [⟨p.hand.get ⟨idx, hidx⟩, pid⟩] }
       if g2.currentHouse.length = 1 then
         ({ g2 with leadSuit := some (p.hand.get ⟨idx, hidx⟩).suit }, true)
       else (g2, true)) := by
    unfold pmPlayCard
    rw [if_neg (by simp [hph])]
    simp only [hfp]
    rw [if_neg (by simp [hent]), if_neg (by rw [hcur]; simp)]
    rw [hph, hfix]
    simp only [hget, hcomp]
  rw [hred]
  simp only
  split
  · exact ⟨rfl, rfl, j, hgj, by rw [hupj]; rfl⟩
  · exact ⟨rfl, rfl, j, hgj, by rw [hupj]; rfl⟩

/-- C9 (amended): during the playing phase, a seat's play first refills its
hand from the tree toward 5 cards and then removes the played card, so the
hand ends with `min 5 (hand + tree) - 1` cards and the tree shrinks by the
drawn cards: backfilling happens during play, not only during exchange. -/
theorem playCard_backfills_during_play (g : GameState) (pid idx : Nat) (p : Player)
    (hph : g.gamePhase = .playing) (hfp : findPlayer g pid = some p)
    (hent : p.enteredRound = some true)
    (hcur : (g.players.get? g.currentPlayerIndex).map (·.id) = some pid)
    (h5 : p.hand.length ≤ 5) (hidx : idx < p.hand.length) :
    (pmPlayCard g pid idx).2 = true ∧
    (pmPlayCard g pid idx).1.tree =
      g.tree.drop (min (5 - p.hand.length) g.tree.length) ∧
    ∃ j, g.players.get? j = some p ∧
      ((pmPlayCard g pid idx).1.players.get? j).map (·.hand.length) =
        some (min 5 (p.hand.length + g.tree.length) - 1) := by
  rcases pmPlayCard_success g pid idx p hph hfp hent hcur h5 hidx
    with ⟨hs, ht, j, hgj, hhand⟩
  refine ⟨hs, ht, j, hgj, ?_⟩
  rcases hq : (pmPlayCard g pid idx).1.players.get? j with - | q
  · rw [hq] at hhand
    simp at hhand
  · rw [hq] at hhand
    simp only [Option.map_some', Option.some.injEq] at hhand ⊢
    rw [hhand]
    have hlen : idx < (p.hand ++
        g.tree.take (min (5 - p.hand.length) g.tree.length)).length := by
      rw [List.length_append]
      omega
    have := List.length_eraseIdx_add_one hlen
    rw [List.length_append, List.length_take] at this
    omega

/-- A playing-phase state for the C9 counterexample: the leader's hand has
four cards (it already played one this round), one card left in the tree. -/
def gC9 : GameState :=
  { players := [ { id := 0, hand := handC5.tail, enteredRound := some true },
                 { id := 1, hand := [mkCard .hearts .r7], enteredRound := some true } ],
    tree := [mkCard .hearts .ace],
    gamePhase := .playing,
    currentPlayerIndex := 0,
    trumpCard := some (mkCard .spades .queen) }

/-- C9 counterexample: a legal play by a seat holding four cards during the
playing phase succeeds, moves the last tree card into the seat's hand
(backfill during play, not during exchange), and leaves the hand at four
cards again (not five). -/
theorem handSize_counterexample :
    (gmPlayCard gC9 0 0).2 = true ∧
    gC9.tree = [mkCard .hearts .ace] ∧
    (gmPlayCard gC9 0 0).1.tree = [] ∧
    (findPlayer (gmPlayCard gC9 0 0).1 0).map (·.hand) =
      some [mkCard .diamonds .r8, mkCard .clubs .r7, mkCard .diamonds .jack,
            mkCard .hearts .ace] ∧
    ((findPlayer gC9 0).map (·.hand.length) = some 4 ∧
      gC9.gamePhase = Phase.playing) := by
  decide

/-- Witness for C9 (amended) on `gC9`: seat 0 plays its first card. -/
theorem playCard_backfills_during_play_witness :
    (pmPlayCard gC9 0 0).2 = true ∧
    (pmPlayCard gC9 0 0).1.tree =
      gC9.tree.drop (min (5 - (handC5.tail).length) gC9.tree.length) ∧
    ∃ j, gC9.players.get? j =
        some { id := 0, hand := handC5.tail, enteredRound := some true } ∧
      ((pmPlayCard gC9 0 0).1.players.get? j).map (·.hand.length) =
        some (min 5 ((handC5.tail).length + gC9.tree.length) - 1) :=
  playCard_backfills_during_play gC9 0 0
    { id := 0, hand := handC5.tail, enteredRound := some true }
    (by decide) (by decide) (by decide) (by decide) (by decide) (by decide)

theorem pmPlayCard_true_elim {g : GameState} {pid idx : Nat}
    (h : (pmPlayCard g pid idx).2 = true) :
    ∃ p, findPlayer g pid = some p ∧ p.enteredRound = some true ∧
      (g.players.get? g.currentPlayerIndex).map (·.id) = some pid := by
  unfold pmPlayCard at h
  split at h
  · exact absurd h (by simp)
  · split at h
    · exact absurd h (by simp)
    · rename_i p hfp
      split at h
      · exact absurd h (by simp)
      · rename_i hent
        split at h
        · exact absurd h (by simp)
        · rename_i hcur
          exact ⟨p, hfp, not_ne_iff.mp hent, not_ne_iff.mp hcur⟩

/-- C8 counterexample: in the playing phase with an empty trick, seat 1 is
entered and `getLegalPlays` offers it index 0, yet `playCard` fails because
seat 0 is the one to act: success is not equivalent to membership in
`getLegalPlays` alone. -/
theorem legality_iff_counterexample :
    (0 ∈ gmPlayableCards gC9 1) ∧ (gmPlayCard gC9 1 0).2 = false ∧
      (findPlayer gC9 1).map (·.enteredRound) = some (some true) := by
  decide

/-- C8 (amended): for every state whose hands hold at most five cards,
`playCard` succeeds exactly when the index is in `getLegalPlays` **and** the
seat exists, entered the round, and is the current player. -/
theorem playCard_success_iff (g : GameState) (pid idx : Nat)
    (h5 : ∀ q ∈ g.players, q.hand.length ≤ 5) :
    (gmPlayCard g pid idx).2 = true ↔
      (idx ∈ gmPlayableCards g pid ∧
       ∃ p, findPlayer g pid = some p ∧ p.enteredRound = some true ∧
         (g.players.get? g.currentPlayerIndex).map (·.id) = some pid) := by
  constructor
  · intro h
    have hsplit : (gmPlayableCards g pid).contains idx = true ∧
        (pmPlayCard g pid idx).2 = true := by
      unfold gmPlayCard at h
      split at h
      · exact absurd h (by simp)
      · rename_i hc
        refine ⟨of_not_not hc, ?_⟩
        by_cases hr : (pmPlayCard g pid idx).2 = true
        · exact hr
        · simp [hr] at h
    refine ⟨by simpa [List.elem_iff] using hsplit.1, pmPlayCard_true_elim hsplit.2⟩
  · rintro ⟨hmem, p, hfp, hent, hcur⟩
    have hph : g.gamePhase = .playing := by
      by_contra hph
      rw [gmPlayableCards, if_pos hph] at hmem
      exact absurd hmem (List.not_mem_nil idx)
    have hleg : idx ∈ findPlayableCards p.hand g.leadSuit (g.trumpCard.map (·.suit))
        (g.currentHouse.map (·.card)) (enteredCount g) := by
      rw [gmPlayableCards, if_neg (by simp [hph])] at hmem
      rw [gsmPlayableCards, hfp] at hmem
      exact hmem
    have hidx : idx < p.hand.length := mem_findPlayableCards_lt hleg
    have hpm := pmPlayCard_success g pid idx p hph hfp hent hcur
      (h5 p (List.mem_of_find?_eq_some hfp)) hidx
    unfold gmPlayCard
    rw [if_neg (by simpa [List.elem_iff] using hmem)]
    simp only [hpm.1, if_true]

/-- Witness for C8 (amended) on `gC9`: seat 0 is the current player and its
play of index 0 is legal, so `playCard` succeeds. -/
theorem playCard_success_iff_witness :
    (gmPlayCard gC9 0 0).2 = true ↔
      (0 ∈ gmPlayableCards gC9 0 ∧
       ∃ p, findPlayer gC9 0 = some p ∧ p.enteredRound = some true ∧
         (gC9.players.get? gC9.currentPlayerIndex).map (·.id) = some 0) :=
  playCard_success_iff gC9 0 0 (by decide)

/-! ### Auto-entry and the two-entered-seats invariant (claim C7) -/

theorem counts_sum (ps : List Player) :
    (ps.filter (fun p => p.enteredRound = some true)).length +
    (ps.filter (fun p => p.enteredRound = some false)).length +
    (ps.filter (fun p => p.enteredRound = none)).length = ps.length := by
  induction ps with
  | nil => rfl
  | cons p rest ih =>
    rcases hp : p.enteredRound with - | b
    · simp [List.filter_cons, hp]
      omega
    · cases b <;> simp [List.filter_cons, hp] <;> omega

theorem updateFirstPlayer_length (ps : List Player) (pid : Nat) (f : Player → Player) :
    (updateFirstPlayer ps pid f).length = ps.length := by
  induction ps with
  | nil => rfl
  | cons p rest ih =>
    by_cases hp : p.id = pid <;> simp [updateFirstPlayer, hp, ih]

theorem declined_set_true_le (ps : List Player) (pid : Nat) :
    ((updateFirstPlayer ps pid (fun p => { p with enteredRound := some true })).filter
      (fun p => p.enteredRound = some false)).length ≤
    (ps.filter (fun p => p.enteredRound = some false)).length := by
  induction ps with
  | nil => exact le_refl _
  | cons p rest ih =>
    by_cases hp : p.id = pid
    · simp only [updateFirstPlayer, if_pos hp, List.filter_cons]
      split <;> split <;> simp_all
    · simp only [updateFirstPlayer, if_neg hp, List.filter_cons]
      split
      · exact Nat.succ_le_succ ih
      · exact ih

theorem entered_set_true_ge (ps : List Player) (pid : Nat) :
    (ps.filter (fun p => p.enteredRound = some true)).length ≤
    ((updateFirstPlayer ps pid (fun p => { p with enteredRound := some true })).filter
      (fun p => p.enteredRound = some true)).length := by
  induction ps with
  | nil => exact le_refl _
  | cons p rest ih =>
    by_cases hp : p.id = pid
    · simp only [updateFirstPlayer, if_pos hp, List.filter_cons]
      split <;> split <;> simp_all
    · simp only [updateFirstPlayer, if_neg hp, List.filter_cons]
      split
      · exact Nat.succ_le_succ ih
      · exact ih

theorem allDecided_set_true (ps : List Player) (pid : Nat)
    (h : ps.all (fun p => p.enteredRound ≠ none) = true) :
    (updateFirstPlayer ps pid (fun p => { p with enteredRound := some true })).all
      (fun p => p.enteredRound ≠ none) = true := by
  induction ps with
  | nil => rfl
  | cons p rest ih =>
    simp only [List.all_cons, Bool.and_eq_true] at h
    by_cases hp : p.id = pid
    · simp only [updateFirstPlayer, if_pos hp, List.all_cons, Bool.and_eq_true]
      exact ⟨by simp, h.2⟩
    · simp only [updateFirstPlayer, if_neg hp, List.all_cons, Bool.and_eq_true]
      exact ⟨h.1, ih h.2⟩

theorem declined_set_false_eq (ps : List Player) (pid : Nat) (p : Player)
    (hfp : ps.find? (fun q => q.id = pid) = some p) (hund : p.enteredRound = none) :
    ((updateFirstPlayer ps pid (fun q => { q with enteredRound := some false })).filter
      (fun q => q.enteredRound = some false)).length =
    (ps.filter (fun q => q.enteredRound = some false)).length + 1 := by
  induction ps with
  | nil => simp [List.find?] at hfp
  | cons q rest ih =>
    by_cases hq : q.id = pid
    · have hpq : p = q := by
        rw [List.find?_cons_of_pos _ (by simp [hq])] at hfp
        exact (Option.some.inj hfp).symm
      subst hpq
      simp [updateFirstPlayer, hq, List.filter_cons, hund]
    · rw [List.find?_cons_of_neg _ (by simp [hq])] at hfp
      simp only [updateFirstPlayer, if_neg hq, List.filter_cons]
      split
      · simp [ih hfp]
      · exact ih hfp

theorem entered_set_false_eq (ps : List Player) (pid : Nat) :
    ((updateFirstPlayer ps pid (fun q => { q with enteredRound := some false })).filter
      (fun q => q.enteredRound = some true)).length =
    (ps.filter (fun q => q.enteredRound = some true)).length ∨
    ((updateFirstPlayer ps pid (fun q => { q with enteredRound := some false })).filter
      (fun q => q.enteredRound = some true)).length ≤
    (ps.filter (fun q => q.enteredRound = some true)).length := by
  right
  induction ps with
  | nil => exact le_refl _
  | cons q rest ih =>
    by_cases hq : q.id = pid
    · simp only [updateFirstPlayer, if_pos hq, List.filter_cons]
      split <;> split <;> simp_all
    · simp only [updateFirstPlayer, if_neg hq, List.filter_cons]
      split
      · exact Nat.succ_le_succ ih
      · exact ih

theorem undecided_eq_nil_of_allDecided (ps : List Player)
    (h : ps.all (fun p => p.enteredRound ≠ none) = true) :
    (ps.filter (fun p => p.enteredRound = none)).length = 0 := by
  rw [List.length_eq_zero]
  refine List.filter_eq_nil.mpr (fun p hp => ?_)
  have := (List.all_eq_true.mp h) p hp
  simpa using this

theorem find?_updateFirstPlayer (ps : List Player) (pid : Nat) (f : Player → Player)
    (p : Player) (hfp : ps.find? (fun q => q.id = pid) = some p)
    (hid : ∀ q, (f q).id = q.id) :
    (updateFirstPlayer ps pid f).find? (fun q => q.id = pid) = some (f p) := by
  induction ps with
  | nil => simp [List.find?] at hfp
  | cons q rest ih =>
    by_cases hq : q.id = pid
    · have hpq : p = q := by
        rw [List.find?_cons_of_pos _ (by simp [hq])] at hfp
        exact (Option.some.inj hfp).symm
      subst hpq
      simp only [updateFirstPlayer, if_pos hq]
      rw [List.find?_cons_of_pos _ (by simp [hid p, hq])]
    · rw [List.find?_cons_of_neg _ (by simp [hq])] at hfp
      simp only [updateFirstPlayer, if_neg hq]
      rw [List.find?_cons_of_neg _ (by simp [hq])]
      exact ih hfp

theorem canPlayerDecide_true_elim {g : GameState} {pid : Nat}
    (h : canPlayerDecide g pid = true) :
    ∃ p, findPlayer g pid = some p ∧ p.enteredRound = none ∧
      ¬(undecidedCount g = 1 ∧ enteredCount g = 1) ∧
      ¬(undecidedCount g ≤ 2 ∧ g.players.length - 2 ≤ declinedCount g) := by
  unfold canPlayerDecide at h
  split at h
  · exact absurd h (by simp)
  · rename_i p hfp
    split at h
    · exact absurd h (by simp)
    · rename_i hund
      split at h
      · exact absurd h (by simp)
      · rename_i h1
        split at h
        · exact absurd h (by simp)
        · rename_i h2
          exact ⟨p, hfp, not_ne_iff.mp hund, h1, h2⟩

/-- The invariant of the entry-decision subsystem: at least two seats, phase
in {dealing, exchanging}, at most `tableSize - 2` declined seats while
dealing, and — once exchanging — every seat decided with at least two
entered. -/
def DecInv (g : GameState) : Prop :=
  2 ≤ g.players.length ∧
  (g.gamePhase = .dealing ∨ g.gamePhase = .exchanging) ∧
  (g.gamePhase = .dealing → declinedCount g ≤ g.players.length - 2) ∧
  (g.gamePhase = .exchanging →
    2 ≤ enteredCount g ∧ g.players.all (fun p => p.enteredRound ≠ none) = true)

theorem decInv_ext {g h : GameState} (hp : h.players = g.players)
    (hph : h.gamePhase = g.gamePhase) (hInv : DecInv g) : DecInv h := by
  obtain ⟨h1, h2, h3, h4⟩ := hInv
  refine ⟨by rw [hp]; exact h1, by rw [hph]; exact h2, ?_, ?_⟩
  · intro hd
    show (h.players.filter (fun p => p.enteredRound = some false)).length ≤
      h.players.length - 2
    rw [hp]
    exact h3 (by rw [← hph]; exact hd)
  · intro he
    have h4' := h4 (by rw [← hph]; exact he)
    constructor
    · show 2 ≤ (h.players.filter (fun p => p.enteredRound = some true)).length
      rw [hp]
      exact h4'.1
    · rw [hp]
      exact h4'.2

theorem decInv_enter (g : GameState) (pid : Nat) (hInv : DecInv g) :
    DecInv (gmEnterTurn g pid).1 := by
  obtain ⟨hlen, hph, hdeal, hexch⟩ := hInv
  show DecInv (pmEnterTurn g pid).1
  unfold pmEnterTurn
  split
  · exact ⟨hlen, hph, hdeal, hexch⟩
  · rename_i hphd
    have hphd' : g.gamePhase = .dealing := not_ne_iff.mp hphd
    split
    · exact ⟨hlen, hph, hdeal, hexch⟩
    · rename_i p hfp
      have hlen1 : (updateFirstPlayer g.players pid
          (fun q => { q with enteredRound := some true })).length = g.players.length :=
        updateFirstPlayer_length _ _ _
      have hdecl1 := declined_set_true_le g.players pid
      dsimp only
      split
      · rename_i hall
        have hsum := counts_sum (updateFirstPlayer g.players pid
          (fun q => { q with enteredRound := some true }))
        have hund0 := undecided_eq_nil_of_allDecided _ hall
        refine ⟨?_, Or.inr rfl, ?_, fun _ => ⟨?_, hall⟩⟩
        · show 2 ≤ (updateFirstPlayer g.players pid
            (fun q => { q with enteredRound := some true })).length
          omega
        · intro hd
          exact absurd hd (by simp)
        · show 2 ≤ ((updateFirstPlayer g.players pid
            (fun q => { q with enteredRound := some true })).filter
              (fun q => q.enteredRound = some true)).length
          have hd := hdeal hphd'
          unfold declinedCount at hd
          omega
      · refine ⟨?_, Or.inl hphd', ?_, ?_⟩
        · show 2 ≤ (updateFirstPlayer g.players pid
            (fun q => { q with enteredRound := some true })).length
          omega
        · intro _
          show ((updateFirstPlayer g.players pid
            (fun q => { q with enteredRound := some true })).filter
              (fun q => q.enteredRound = some false)).length ≤
            (updateFirstPlayer g.players pid
              (fun q => { q with enteredRound := some true })).length - 2
          have hd := hdeal hphd'
          unfold declinedCount at hd
          omega
        · intro hx
          exact absurd hx (by simp [pmNextTurnEnter, hphd'])

theorem decInv_skip (g : GameState) (pid : Nat) (hInv : DecInv g) :
    DecInv (gmSkipTurn g pid).1 := by
  obtain ⟨hlen, hph, hdeal, hexch⟩ := hInv
  unfold gmSkipTurn
  split
  · split
    · rename_i p hfp
      have hlen1 : (updateFirstPlayer g.players pid
          (fun q => { q with enteredRound := some true })).length = g.players.length :=
        updateFirstPlayer_length _ _ _
      have hdecl1 := declined_set_true_le g.players pid
      have hent1 := entered_set_true_ge g.players pid
      have hmid : DecInv { g with players := updateFirstPlayer g.players pid (fun q => { q with enteredRound := some true }) } := by
        refine ⟨?_, hph, ?_, ?_⟩
        · show 2 ≤ (updateFirstPlayer g.players pid
            (fun q => { q with enteredRound := some true })).length
          omega
        · intro hd
          have hd' := hdeal hd
          show ((updateFirstPlayer g.players pid
            (fun q => { q with enteredRound := some true })).filter
              (fun q => q.enteredRound = some false)).length ≤
            (updateFirstPlayer g.players pid
              (fun q => { q with enteredRound := some true })).length - 2
          unfold declinedCount at hd'
          omega
        · intro he
          have he' := hexch he
          refine ⟨?_, allDecided_set_true _ _ he'.2⟩
          show 2 ≤ ((updateFirstPlayer g.players pid
            (fun q => { q with enteredRound := some true })).filter
              (fun q => q.enteredRound = some true)).length
          unfold enteredCount at he'
          omega
      exact decInv_ext rfl rfl hmid
    · exact ⟨hlen, hph, hdeal, hexch⟩
  · rename_i hcpd
    have hcpd' : canPlayerDecide g pid = true := not_not.mp hcpd
    rcases canPlayerDecide_true_elim hcpd' with ⟨p, hfp, hund, hc1, hc2⟩
    unfold pmSkipTurn
    split
    · exact ⟨hlen, hph, hdeal, hexch⟩
    · rename_i hphd
      have hphd' : g.gamePhase = .dealing := not_ne_iff.mp hphd
      split
      · exact ⟨hlen, hph, hdeal, hexch⟩
      · rename_i p' hfp'
        have hlen1 : (updateFirstPlayer g.players pid
            (fun q => { q with enteredRound := some false })).length = g.players.length :=
          updateFirstPlayer_length _ _ _
        have hdecl1 := declined_set_false_eq g.players pid p hfp hund
        have hsum := counts_sum g.players
        have hund1 : 1 ≤ undecidedCount g := by
          have hpmem : p ∈ g.players := List.mem_of_find?_eq_some hfp
          have hmem2 : p ∈ g.players.filter (fun q => q.enteredRound = none) :=
            List.mem_filter.mpr ⟨hpmem, by simp [hund]⟩
          unfold undecidedCount
          exact List.length_pos.mpr (List.ne_nil_of_mem hmem2)
        have hdeclb : declinedCount g + 1 ≤ g.players.length - 2 := by
          by_contra hcon
          have h2' : g.players.length - 2 ≤ declinedCount g := by omega
          have h3' : ¬ (undecidedCount g ≤ 2) := fun hle => hc2 ⟨hle, h2'⟩
          unfold undecidedCount at h3' hund1
          unfold declinedCount at h2' hcon
          omega
        dsimp only
        split
        · rename_i hall
          have hsum1 := counts_sum (updateFirstPlayer g.players pid
            (fun q => { q with enteredRound := some false }))
          have hund0 := undecided_eq_nil_of_allDecided _ hall
          refine ⟨?_, Or.inr rfl, ?_, fun _ => ⟨?_, hall⟩⟩
          · show 2 ≤ (updateFirstPlayer g.players pid
              (fun q => { q with enteredRound := some false })).length
            omega
          · intro hd
            exact absurd hd (by simp)
          · show 2 ≤ ((updateFirstPlayer g.players pid
              (fun q => { q with enteredRound := some false })).filter
                (fun q => q.enteredRound = some true)).length
            unfold declinedCount at hdecl1 hdeclb
            omega
        · refine ⟨?_, Or.inl hphd', ?_, ?_⟩
          · show 2 ≤ (updateFirstPlayer g.players pid
              (fun q => { q with enteredRound := some false })).length
            omega
          · intro _
            show ((updateFirstPlayer g.players pid
              (fun q => { q with enteredRound := some false })).filter
                (fun q => q.enteredRound = some false)).length ≤
              (updateFirstPlayer g.players pid
                (fun q => { q with enteredRound := some false })).length - 2
            unfold declinedCount at hdecl1 hdeclb
            omega
          · intro hx
            exact absurd hx (by simp [pmNextTurnEnter, hphd'])

theorem decInv_reach {g0 g : GameState} (h0 : DecInv g0) (hr : DecReach g0 g) :
    DecInv g := by
  induction hr with
  | refl => exact h0
  | tail hr hstep ih =>
    cases hstep with
    | enter pid => exact decInv_enter _ pid ih
    | skip pid => exact decInv_skip _ pid ih

/-- A five-seat dealing state: seats 0–2 declined, seat 3 entered, seat 4
still undecided — the auto-entry rules catch seat 4. -/
def gDec : GameState :=
  { players := [ { id := 0, enteredRound := some false },
                 { id := 1, enteredRound := some false },
                 { id := 2, enteredRound := some false },
                 { id := 3, enteredRound := some true },
                 { id := 4 } ],
    gamePhase := .dealing }

/-- A fresh two-seat deal: both seats undecided. -/
def gDec0 : GameState :=
  { players := [ { id := 0 }, { id := 1 } ], gamePhase := .dealing }

/-- C7: during the dealing phase a decline by an undecided seat caught by the
auto-entry rule — the last undecided seat with exactly one entrant, or at most
two undecided seats with at least `tableSize - 2` declined — is not honored:
`GameManager.skipTurn` reports failure and records the seat as entered; and
consequently every state of the entry-decision subsystem reachable from a
freshly dealt table that is in the `exchanging` phase has at least two entered
seats. -/
theorem autoEntry_and_minTwoEntered :
    (∀ (g : GameState) (pid : Nat) (p : Player),
      g.gamePhase = .dealing →
      findPlayer g pid = some p → p.enteredRound = none →
      ((undecidedCount g = 1 ∧ enteredCount g = 1) ∨
       (undecidedCount g ≤ 2 ∧ g.players.length - 2 ≤ declinedCount g)) →
      (gmSkipTurn g pid).2 = false ∧
        findPlayer (gmSkipTurn g pid).1 pid =
          some { p with enteredRound := some true }) ∧
    (∀ g0 g : GameState, FreshDeal g0 → DecReach g0 g →
      g.gamePhase = .exchanging → 2 ≤ enteredCount g) := by
  constructor
  · intro g pid p _ hfp hund hcond
    have hcpd : canPlayerDecide g pid = false := by
      unfold canPlayerDecide
      rw [hfp]
      rcases hcond with ⟨h1, h2⟩ | ⟨h1, h2⟩ <;> simp [hund, h1, h2]
    have hstep : gmSkipTurn g pid =
        (gmNextTurn { g with players := updateFirstPlayer g.players pid (fun q => { q with enteredRound := some true }) }, false) := by
      unfold gmSkipTurn
      rw [hcpd, hfp]
      simp
    refine ⟨by rw [hstep], ?_⟩
    rw [hstep]
    show findPlayer (gmNextTurn _) pid = _
    unfold findPlayer gmNextTurn
    exact find?_updateFirstPlayer g.players pid _ p hfp (fun q => rfl)
  · intro g0 g hfresh hreach hex
    obtain ⟨hph0, hlen0, hund0⟩ := hfresh
    have hInv0 : DecInv g0 := by
      refine ⟨hlen0, Or.inl hph0, ?_, ?_⟩
      · intro _
        have hzero : declinedCount g0 = 0 := by
          unfold declinedCount
          rw [List.length_eq_zero]
          refine List.filter_eq_nil.mpr (fun p hp => ?_)
          simp [hund0 p hp]
        omega
      · intro hx
        rw [hph0] at hx
        exact Phase.noConfusion hx
    have hInv := decInv_reach hInv0 hreach
    exact (hInv.2.2.2 hex).1

theorem autoEntry_and_minTwoEntered_witness :
    ((gmSkipTurn gDec 4).2 = false ∧
      findPlayer (gmSkipTurn gDec 4).1 4 = some { id := 4, enteredRound := some true }) ∧
    2 ≤ enteredCount (gmEnterTurn (gmEnterTurn gDec0 0).1 1).1 :=
  ⟨autoEntry_and_minTwoEntered.1 gDec 4 { id := 4 } rfl (by decide) rfl
      (Or.inr ⟨by decide, by decide⟩),
   autoEntry_and_minTwoEntered.2 gDec0 (gmEnterTurn (gmEnterTurn gDec0 0).1 1).1
      ⟨rfl, by decide, by decide⟩
      (DecReach.tail (DecReach.tail DecReach.refl (DecStep.enter gDec0 0))
        (DecStep.enter (gmEnterTurn gDec0 0).1 1))
      (by decide)⟩

end Muushig
